import Mathlib

/-!
Verification development for the declaration validation core of
lib/Sema/TypeCheckDecl.cpp: raw value keying for enums, the inheritance
clause resolver, the circularity checker, override resolution and the
validation driver prologue.  Each definition is a shallow embedding of the
corresponding C++ function; line numbers in doc comments refer to
TypeCheckDecl.cpp.
-/

/-! ## Part 1: raw value keying (RawValueKey, lines 49-187) -/

/-- Model of an IEEE binary64 datum as produced by the float literal parser
(llvm APFloat with IEEEdouble semantics, the 64 bit branch of the
RawValueKey constructor at lines 100-109): sign bit, biased exponent
(11 bits, well formed when below 2048) and fraction (52 bits). -/
structure Float64 where
  sign : Bool
  exp : Nat
  frac : Nat
deriving DecidableEq

/-- Well formed binary64 datum: exponent and fraction fields in range. -/
def Float64.wf (f : Float64) : Prop := f.exp < 2048 ∧ f.frac < 2 ^ 52

instance : DecidablePred Float64.wf := fun f => by
  unfold Float64.wf; infer_instance

/-- Finite (neither NaN nor an infinity): the exponent field is not all ones. -/
def Float64.isFinite (f : Float64) : Prop := f.exp ≠ 2047

instance : DecidablePred Float64.isFinite := fun f => by
  unfold Float64.isFinite; infer_instance

/-- The magnitude of a finite binary64 datum scaled by 2 ^ 1074, as a natural
number: with biased exponent 0 the datum is subnormal with value
frac * 2 ^ (-1074), otherwise its value is (2 ^ 52 + frac) * 2 ^ (exp - 1075).
The scale 2 ^ 1074 makes every finite value an integer. -/
def Float64.natMag (f : Float64) : Nat :=
  if f.exp = 0 then f.frac else (2 ^ 52 + f.frac) * 2 ^ (f.exp - 1)

/-- The numeric value of a finite binary64 datum, scaled by 2 ^ 1074 so that
it is always an integer.  Two finite data are numerically equal exactly when
their scaled values coincide. -/
def Float64.scaledValue (f : Float64) : Int :=
  (if f.sign then -1 else 1) * (f.natMag : Int)

/-- Raw bit pattern of the binary64 datum, as bitcastToAPInt produces it
(line 100): sign in bit 63, biased exponent in bits 52-62, fraction below. -/
def Float64.bits64 (f : Float64) : Nat :=
  (if f.sign then 2 ^ 63 else 0) + f.exp * 2 ^ 52 + f.frac

/-- Model of the conversion at lines 91-95: llvm APFloat convertToInteger
into a signed 127 bit APSInt with rounding toward zero, returning the
integer exactly when the status is opOK and the conversion was exact.  Per
the llvm semantics this requires the value to be finite, an exact integer
that fits the signed 127 bit destination, and not a negative zero (llvm
reports a negative zero as opOK but not exact). -/
def Float64.convertToIntegerExact (f : Float64) : Option Int :=
  if f.exp = 2047 then none
  else if f.sign ∧ f.exp = 0 ∧ f.frac = 0 then none
  else if f.scaledValue % ((2 ^ 1074 : Nat) : Int) = 0 then
    let n := f.scaledValue / ((2 ^ 1074 : Nat) : Int)
    if -((2 ^ 126 : Nat) : Int) ≤ n ∧ n < ((2 ^ 126 : Nat) : Int) then some n
    else none
  else none

/-- Literal expressions usable as enum raw values (the LiteralExpr kinds the
RawValueKey constructor at lines 83-119 accepts).  Integer literals carry
their APInt value as an unbounded integer; float literals carry a binary64
datum (the 80 bit x87 branch at lines 102-104 is outside this model). -/
inductive LiteralExpr
  | integerLiteral (value : Int)
  | floatLiteral (value : Float64)
  | stringLiteral (value : String)
deriving DecidableEq

/-- Model of RawValueKey::IntValueTy (lines 57-68): the value sign extended
or truncated to 128 bits, kept as the two raw 64 bit words. -/
def toBits128 (n : Int) : Nat := (n % ((2 ^ 128 : Nat) : Int)).toNat

/-- Low 64 bit word of the sign extended 128 bit value (data[0]). -/
def intWord0 (n : Int) : Nat := toBits128 n % 2 ^ 64

/-- High 64 bit word of the sign extended 128 bit value (data[1]). -/
def intWord1 (n : Int) : Nat := toBits128 n / 2 ^ 64

/-- The tagged raw value key (lines 52-81).  The Empty and Tombstone tags
are DenseMap sentinels and never key a real literal, so they are not
modelled. -/
inductive RawValueKey
  | str (s : String)
  | float (v0 v1 : Nat)
  | int (v0 v1 : Nat)
deriving DecidableEq

/-- Model of the RawValueKey constructor from a literal expression
(lines 83-119): an integer literal is keyed by its sign extended 128 bit
value; a float literal whose value converts exactly to an integer fitting
the signed 127 bit APSInt is keyed as that integer, and otherwise by its
raw bit pattern (64 bit data in the low word, high word zero); a string
literal is keyed by its contents. -/
def RawValueKey.ofExpr : LiteralExpr → RawValueKey
  | .integerLiteral n => .int (intWord0 n) (intWord1 n)
  | .floatLiteral f =>
    match f.convertToIntegerExact with
    | some n => .int (intWord0 n) (intWord1 n)
    | none => .float f.bits64 0
  | .stringLiteral s => .str s

/-- Model of DenseMapInfo(RawValueKey)::isEqual (lines 168-186): keys of
different tags are unequal; float keys compare by both raw words (bit
equality, not numeric equality); integer keys compare by both words;
string keys compare by contents. -/
def RawValueKey.isEqual : RawValueKey → RawValueKey → Bool
  | .float a0 a1, .float b0 b1 => a0 == b0 && a1 == b1
  | .int a0 a1, .int b0 b1 => a0 == b0 && a1 == b1
  | .str a, .str b => a == b
  | _, _ => false

/-! ## Part 1b: enum raw value checking (lines 2400-2639) -/

/-- How to generate a raw value for a case that has none (lines 2404-2413). -/
inductive AutomaticEnumValueKind
  | None
  | String
  | Integer
deriving DecidableEq

/-- An enum element as seen by checkEnumRawValues: its name, whether it has
an associated payload type, whether validation already marked it invalid,
and its explicit raw value literal if the source gave one. -/
structure EnumElementDecl where
  name : String
  hasArgumentType : Bool
  isInvalid : Bool
  rawValueExpr : Option LiteralExpr
deriving DecidableEq

/-- Diagnostics emitted during raw value checking.  Element positions stand
in for source locations. -/
inductive RVDiag
  | nonIntegerConvertibleRawTypeNoValue (elt : Nat)
  | nonIntegerRawValueAutoIncrement (elt : Nat)
  | caseWithArgument (elt : Nat)
  | rawTypeHere
  | rawValueNotUnique (elt : Nat)
  | rawValueUsedHere (elt : Nat)
  | incrementingFromHere (elt : Nat)
  | incrementingFromZero (elt : Nat)
  | emptyEnumRawType
deriving DecidableEq

/-- Model of getAutomaticRawValueExpr (lines 2419-2461): with kind None
there is nothing to synthesize and an error is diagnosed; with kind String
the name of the case becomes a string literal; with kind Integer the
previous value plus one is synthesized, or the literal 0 when no previous
value exists, and a previous non integer literal is an error.  The source
increments the APInt at the width of the literal; the model uses the
unbounded integer it denotes. -/
def getAutomaticRawValueExpr (valueKind : AutomaticEnumValueKind)
    (eltIdx : Nat) (eltName : String) (prevValue : Option LiteralExpr) :
    Option LiteralExpr × List RVDiag :=
  match valueKind with
  | .None => (none, [.nonIntegerConvertibleRawTypeNoValue eltIdx])
  | .String => (some (.stringLiteral eltName), [])
  | .Integer =>
    match prevValue with
    | none => (some (.integerLiteral 0), [])
    | some (.integerLiteral n) => (some (.integerLiteral (n + 1)), [])
    | some _ => (none, [.nonIntegerRawValueAutoIncrement eltIdx])

/-- State threaded through the case loop of checkEnumRawValues: the previous
raw value (for auto increment), the most recent case with an explicit value,
the uniqueness map (association list keyed with RawValueKey.isEqual, storing
for each key its first element and that element's explicit value ancestor),
the raw value finally assigned to each processed case, and the diagnostics. -/
structure RVState where
  prevValue : Option LiteralExpr
  lastExplicitValueElt : Option Nat
  uniqueRawValues : List (RawValueKey × Nat × Option Nat)
  assigned : List (Nat × LiteralExpr)
  diags : List RVDiag
deriving DecidableEq

/-- Lookup in the uniqueness map, using the DenseMap key equality. -/
def findRawValue (key : RawValueKey) :
    List (RawValueKey × Nat × Option Nat) → Option (Nat × Option Nat)
  | [] => none
  | (k, v) :: rest => if k.isEqual key then some v else findRawValue key rest

/-- Model of lines 2573-2637: record the (explicit or synthesized) raw value
of element i, then check uniqueness; on a collision diagnose at the
colliding case, chain an incrementing-from note when auto increment was
involved on its side, point at the first occupant, and chain the first
occupant's incrementing-from note likewise (from its explicit ancestor, or
from the zero start at the first element). -/
def recordRawValue (valueKind : AutomaticEnumValueKind) (st : RVState)
    (i : Nat) (rawValue : LiteralExpr) : RVState :=
  let st := { st with prevValue := some rawValue
                      assigned := st.assigned ++ [(i, rawValue)] }
  let key := RawValueKey.ofExpr rawValue
  match findRawValue key st.uniqueRawValues with
  | none =>
    { st with uniqueRawValues :=
        st.uniqueRawValues ++ [(key, i, st.lastExplicitValueElt)] }
  | some (foundElt, foundLast) =>
    let d1 := [RVDiag.rawValueNotUnique i]
    let d2 := if st.lastExplicitValueElt ≠ some i ∧
                 valueKind = AutomaticEnumValueKind.Integer then
                match st.lastExplicitValueElt with
                | some j => [RVDiag.incrementingFromHere j]
                | none => []
              else []
    let d3 := [RVDiag.rawValueUsedHere foundElt]
    let d4 := if some foundElt ≠ foundLast ∧
                 valueKind = AutomaticEnumValueKind.Integer then
                match foundLast with
                | some j => [RVDiag.incrementingFromHere j]
                | none => [RVDiag.incrementingFromZero 0]
              else []
    { st with diags := st.diags ++ d1 ++ d2 ++ d3 ++ d4 }

/-- One iteration of the case loop (lines 2535-2638).  The boolean result is
false exactly when the loop must stop (the break at line 2565, reached when
no automatic value can be synthesized).  Invalid elements are skipped;
payload cases are diagnosed and skipped; an explicit raw value records its
element as the new explicit ancestor; otherwise a value is synthesized.
Type checking of the raw value expression against the raw type is an
external collaborator and is modelled as succeeding. -/
def checkRawValueElt (valueKind : AutomaticEnumValueKind) (st : RVState)
    (i : Nat) (elt : EnumElementDecl) : RVState × Bool :=
  if elt.isInvalid then (st, true)
  else if elt.hasArgumentType then
    ({ st with diags := st.diags ++ [.caseWithArgument i, .rawTypeHere] }, true)
  else
    match elt.rawValueExpr with
    | some rawValue =>
      (recordRawValue valueKind { st with lastExplicitValueElt := some i }
        i rawValue, true)
    | none =>
      match getAutomaticRawValueExpr valueKind i elt.name st.prevValue with
      | (none, ds) => ({ st with diags := st.diags ++ ds }, false)
      | (some nextValue, ds) =>
        (recordRawValue valueKind { st with diags := st.diags ++ ds }
          i nextValue, true)

/-- The case loop of checkEnumRawValues, indexed from i. -/
def checkRawValuesLoop (valueKind : AutomaticEnumValueKind) :
    RVState → Nat → List EnumElementDecl → RVState
  | st, _, [] => st
  | st, i, elt :: rest =>
    match checkRawValueElt valueKind st i elt with
    | (st2, true) => checkRawValuesLoop valueKind st2 (i + 1) rest
    | (st2, false) => st2

/-- Initial loop state (lines 2529-2533). -/
def initialRVState : RVState := ⟨none, none, [], [], []⟩

/-- Model of checkEnumRawValues (lines 2463-2639) for an enum whose raw type
resolved without error.  The automatic value kind is computed by the caller
from the raw type's literal protocol conformances (an external oracle) and
is taken as a parameter.  An enum with a raw type but no cases is an error
(lines 2522-2526). -/
def checkEnumRawValues (valueKind : AutomaticEnumValueKind)
    (elements : List EnumElementDecl) : RVState :=
  if elements.isEmpty then { initialRVState with diags := [.emptyEnumRawType] }
  else checkRawValuesLoop valueKind initialRVState 0 elements

/-! ## Part 2: inheritance clause resolution (checkInheritanceClause, lines 191-549) -/

/-- A resolved type occurring in an inheritance clause, compared up to
canonical equality (canonical types are modelled as the structural value).
An existential carries the protocols it mentions; a class type is a
superclass candidate; any other nominal type (for instance a struct such as
Int) falls to the remaining cases. -/
inductive InheritedTy
  | errorTy
  | existential (protocols : List Nat)
  | classTy (id : Nat)
  | otherTy (id : Nat)
deriving DecidableEq

/-- Whether the type is a protocol or protocol composition (line 400). -/
def InheritedTy.isExistential : InheritedTy → Bool
  | .existential _ => true
  | _ => false

/-- Whether the type is a class (getClassOrBoundGenericClass, line 449). -/
def InheritedTy.isClass : InheritedTy → Bool
  | .classTy _ => true
  | _ => false

/-- One parsed entry of an inheritance clause: whether validateType fails on
it (line 361), and the type it resolves to otherwise. -/
structure InheritedEntry where
  validationFails : Bool
  ty : InheritedTy
deriving DecidableEq

/-- The kind of declaration owning the clause.  A protocol carries its own
identity for the self inheritance check (line 521). -/
inductive CIDeclKind
  | classKind
  | enumKind
  | structKind
  | protocolKind (selfId : Nat)
  | genericParamKind
  | associatedTypeKind
deriving DecidableEq

/-- Model of canInheritClass (lines 192-206): classes, generic type
parameters and associated types can inherit from a class. -/
def canInheritClass : CIDeclKind → Bool
  | .classKind => true
  | .genericParamKind => true
  | .associatedTypeKind => true
  | _ => false

/-- Diagnostics of the inheritance clause checker.  Entry positions stand in
for source ranges. -/
inductive CIDiag
  | duplicateInheritance (entry : Nat) (ty : InheritedTy) (origRange : Nat)
  | multipleEnumRawTypes (entry : Nat) (first second : InheritedTy)
  | rawTypeNotFirst (entry : Nat) (ty : InheritedTy)
  | multipleInheritance (entry : Nat) (first second : InheritedTy)
  | nonClassInheritance (entry : Nat) (ty : InheritedTy)
  | superclassNotFirst (entry : Nat) (ty : InheritedTy)
  | inheritanceFromNonProtocolOrClass (ty : InheritedTy)
  | inheritanceFromNonProtocol (ty : InheritedTy)
  | circularProtocolDef (proto : Nat)
deriving DecidableEq

/-- Loop state of checkInheritanceClause (lines 346-350): the single
superclass or raw type slot (the source reuses one variable for both), its
recording entry, the protocol set (insertion ordered, duplicate free), the
map from canonical type to the recording entry, the entries marked invalid,
and the diagnostics. -/
structure CIState where
  superclassTy : Option InheritedTy
  superclassRange : Option Nat
  allProtocols : List Nat
  inheritedTypes : List (InheritedTy × Nat)
  invalidEntries : List Nat
  diags : List CIDiag
deriving DecidableEq

/-- SmallSetVector::insert: append the element unless already present. -/
def insertProtocol (p : Nat) (ps : List Nat) : List Nat :=
  if p ∈ ps then ps else ps ++ [p]

/-- Insert each protocol of the list in order (SmallSetVector range insert). -/
def insertProtocols (ps : List Nat) (acc : List Nat) : List Nat :=
  ps.foldl (fun a q => insertProtocol q a) acc

/-- Lookup of a canonical type in the inheritedTypes map (line 380). -/
def lookupInherited (ty : InheritedTy) : List (InheritedTy × Nat) → Option Nat
  | [] => none
  | (t, r) :: rest => if t = ty then some r else lookupInherited ty rest

/-- The identity of the implicitly added RawRepresentable protocol
(lines 442-444). -/
def rawRepresentableId : Nat := 0

/-- Model of one iteration of the clause loop (lines 352-509): failed
validation marks the entry invalid; error types are skipped; a canonical
repeat is the duplicate inheritance error; an existential contributes its
protocols; for an enum any remaining type is a raw type candidate subject to
the single slot and first position rules and implies RawRepresentable; a
class type is a superclass candidate subject to the single slot, the
canInheritClass rule and the first position rule; everything else is an
inheritance from a non protocol (or non class) error. -/
def processInheritedEntry (k : CIDeclKind) (st : CIState) (i : Nat)
    (entry : InheritedEntry) : CIState :=
  if entry.validationFails then
    { st with invalidEntries := st.invalidEntries ++ [i] }
  else if entry.ty = .errorTy then st
  else
    match lookupInherited entry.ty st.inheritedTypes with
    | some orig =>
      { st with diags := st.diags ++ [.duplicateInheritance i entry.ty orig]
                invalidEntries := st.invalidEntries ++ [i] }
    | none =>
      let st := { st with inheritedTypes := st.inheritedTypes ++ [(entry.ty, i)] }
      match entry.ty with
      | .existential ps =>
        { st with allProtocols := insertProtocols ps st.allProtocols }
      | ty =>
        if k = .enumKind then
          match st.superclassTy with
          | some first =>
            { st with diags := st.diags ++ [.multipleEnumRawTypes i first ty]
                      invalidEntries := st.invalidEntries ++ [i] }
          | none =>
            let st := if 0 < i then
                { st with diags := st.diags ++ [.rawTypeNotFirst i ty] }
              else st
            { st with superclassTy := some ty
                      superclassRange := some i
                      allProtocols := insertProtocol rawRepresentableId st.allProtocols }
        else if ty.isClass then
          match st.superclassTy with
          | some first =>
            { st with diags := st.diags ++ [.multipleInheritance i first ty]
                      invalidEntries := st.invalidEntries ++ [i] }
          | none =>
            if canInheritClass k then
              let st := if 0 < i then
                  { st with diags := st.diags ++ [.superclassNotFirst i ty] }
                else st
              { st with superclassTy := some ty
                        superclassRange := some i }
            else
              { st with diags := st.diags ++ [.nonClassInheritance i ty]
                        invalidEntries := st.invalidEntries ++ [i] }
        else
          let d := if canInheritClass k then
              CIDiag.inheritanceFromNonProtocolOrClass ty
            else CIDiag.inheritanceFromNonProtocol ty
          { st with diags := st.diags ++ [d]
                    invalidEntries := st.invalidEntries ++ [i] }

/-- The clause loop, indexed from i. -/
def runInheritedEntries (k : CIDeclKind) : CIState → Nat → List InheritedEntry → CIState
  | st, _, [] => st
  | st, i, e :: rest => runInheritedEntries k (processInheritedEntry k st i e) (i + 1) rest

/-- Model of the circular protocol pruning loop (lines 519-533): remove from
the protocol set every protocol equal to the declaration itself or already
inheriting from it, preserving the order of the rest; the boolean records
whether anything was removed (and hence whether the circular protocol
diagnostic fires, once). -/
def pruneCircularProtocols (selfId : Nat) (inheritsFrom : Nat → Nat → Bool) :
    List Nat → Bool → List Nat × Bool
  | [], removed => ([], removed)
  | p :: rest, removed =>
    if p = selfId ∨ inheritsFrom p selfId then
      pruneCircularProtocols selfId inheritsFrom rest true
    else
      let r := pruneCircularProtocols selfId inheritsFrom rest removed
      (p :: r.1, r.2)

/-- Result of checkInheritanceClause: the final loop state, and the data
committed to the declaration (lines 511-548): the protocol set for a
protocol declaration (after circularity pruning), the superclass for a
class, the raw type for an enum. -/
structure CIResult where
  state : CIState
  superclass : Option InheritedTy
  rawType : Option InheritedTy
  protocolsSet : Option (List Nat)

/-- The loop state at entry to the clause loop: no superclass or raw type
yet, the implicit conformances already inserted (lines 346-351). -/
def initCIState (implicitProtocols : List Nat) : CIState :=
  ⟨none, none, insertProtocols implicitProtocols [], [], [], []⟩

/-- Model of TypeChecker::checkInheritanceClause (lines 264-549) for a
declaration whose clause entries already resolved to the given types.  The
implicit conformances of the nominal kind (addImplicitConformances,
lines 216-224) and the protocol inheritsFrom relation are external inputs. -/
def checkInheritanceClause (k : CIDeclKind) (implicitProtocols : List Nat)
    (inheritsFrom : Nat → Nat → Bool) (clause : List InheritedEntry) : CIResult :=
  let st := runInheritedEntries k (initCIState implicitProtocols) 0 clause
  match k with
  | .protocolKind selfId =>
    let pr := pruneCircularProtocols selfId inheritsFrom st.allProtocols false
    let st := if pr.2 then
        { st with diags := st.diags ++ [.circularProtocolDef selfId] }
      else st
    { state := st, superclass := none, rawType := none, protocolsSet := some pr.1 }
  | .classKind =>
    { state := st, superclass := st.superclassTy, rawType := none, protocolsSet := none }
  | .enumKind =>
    { state := st, superclass := none, rawType := st.superclassTy, protocolsSet := none }
  | _ =>
    { state := st, superclass := none, rawType := none, protocolsSet := none }

/-! ## Part 3: circularity checking (checkCircularity, lines 585-671) -/

/-- The per declaration circularity marker (lines 609-669). -/
inductive CircularityCheck
  | Unchecked
  | Checking
  | Checked
deriving DecidableEq

/-- Diagnostics of the circularity checker.  Declarations are numbered; the
cycle diagnostic carries the textual path as the list of its members. -/
inductive CircDiag
  | circularSelfReference (decl : Nat)
  | circularInheritance (cycle : List Nat)
  | declaredHere (decl : Nat)
deriving DecidableEq

/-- The mutable context of the circularity traversal: for each declaration
its circularity marker, its current structural parents (the superclass, raw
type or inherited protocols, as getInheritedForCycleCheck reads them at
lines 552-583), its invalidity flag, whether its type was overwritten with
the error type, and the diagnostics so far. -/
structure CircCtx where
  circ : Nat → CircularityCheck
  parents : Nat → List Nat
  invalid : Nat → Bool
  errorType : Nat → Bool
  diags : List CircDiag

/-- Set the circularity marker of one declaration. -/
def setCirc (s : CircCtx) (d : Nat) (c : CircularityCheck) : CircCtx :=
  { s with circ := fun x => if x = d then c else s.circ x }

/-- Model of the Checking case of checkCircularity (lines 613-656): the
declaration is already on the path, so scan backward to the start of the
cycle (its last occurrence on the path); a cycle of length one is the direct
self reference diagnostic, a longer one is diagnosed with the textual path
and one declared-here note per intermediate member; then the declaration is
marked invalid, its type is overwritten with the error type, and its
structural parent edges are cleared (breakInheritanceCycle, lines 589-601:
a protocol clears all inherited protocols, a class its superclass, an enum
its raw type). -/
def handleCycle (s : CircCtx) (decl : Nat) (path : List Nat) : CircCtx :=
  let tail := (path.reverse.takeWhile (fun x => x ≠ decl)).reverse
  let s :=
    if tail.isEmpty then
      { s with diags := s.diags ++ [CircDiag.circularSelfReference decl] }
    else
      { s with diags := s.diags ++ [CircDiag.circularInheritance (decl :: tail ++ [decl])]
                          ++ tail.map CircDiag.declaredHere }
  { s with invalid := fun x => if x = decl then true else s.invalid x
           errorType := fun x => if x = decl then true else s.errorType x
           parents := fun x => if x = decl then [] else s.parents x }

/-- The traversal of the listed parents of one declaration (the loop at
lines 663-665), parameterized by the recursive visit. -/
def checkCircularityList (f : CircCtx → Nat → Option CircCtx) :
    CircCtx → List Nat → Option CircCtx
  | s, [] => some s
  | s, d :: rest =>
    match f s d with
    | none => none
    | some s2 => checkCircularityList f s2 rest

/-- One unfolding of checkCircularity (lines 605-671), with the recursive
visit abstracted: a Checked declaration returns at once; a Checking one is a
detected cycle; an Unchecked one is pushed on the path, marked Checking, its
parents (read once, as the range based for loop does) are traversed, and the
declaration is then marked Checked and popped. -/
def checkCircularityStep (recur : CircCtx → Nat → List Nat → Option CircCtx)
    (s : CircCtx) (decl : Nat) (path : List Nat) : Option CircCtx :=
  match s.circ decl with
  | .Checked => some s
  | .Checking => some (handleCycle s decl path)
  | .Unchecked =>
    let s1 := setCirc s decl .Checking
    match checkCircularityList (fun st c => recur st c (path ++ [decl]))
        s1 (s1.parents decl) with
    | none => none
    | some s2 => some (setCirc s2 decl .Checked)

/-- Model of checkCircularity (lines 605-671): the colored depth first
search, iterated to the available depth.  With no fuel left only the non
recursive cases answer; the termination theorem shows that the number of
unchecked declarations bounds the fuel needed, so the fuel cap is an
artifact of the embedding and not of the algorithm. -/
def checkCircularity : Nat → CircCtx → Nat → List Nat → Option CircCtx
  | 0 => fun s decl path =>
    match s.circ decl with
    | .Checked => some s
    | .Checking => some (handleCycle s decl path)
    | .Unchecked => none
  | fuel + 1 => checkCircularityStep (checkCircularity fuel)

/-- Number of declarations below n still Unchecked: the measure that bounds
the fuel the traversal needs. -/
def uncheckedCount (n : Nat) (s : CircCtx) : Nat :=
  (List.range n).countP (fun x => s.circ x == CircularityCheck.Unchecked)

/-! ## Part 4: override resolution (DeclChecker::checkOverrides, lines 4145-5064) -/

/-- Kinds of overridable members: methods, initializers, properties and
subscripts.  The kind equality test at line 4394 compares these. -/
inductive OvKind
  | funcKind
  | ctorKind
  | varKind
  | subscriptKind
deriving DecidableEq

/-- The declaration being checked for an override.  Type level comparisons
(isEqual, canOverride) and the foreign runtime selectors are oracles of the
type checker boundary and appear as fields of the candidates below. -/
structure OvDecl where
  kind : OvKind
  isInvalid : Bool
  hasOverriddenDecl : Bool
  hasSuperclass : Bool
  isAccessor : Bool
  argLabels : Nat
  isStatic : Bool
  isObjC : Bool
  hasOverrideAttr : Bool
  nameIsSimple : Bool
  hasStorage : Bool
  hasObservers : Bool
  isSettable : Bool
  inExtension : Bool
deriving DecidableEq

/-- A superclass member found by name lookup, together with the oracle
results of the type comparisons against the declaration being checked. -/
structure OvCandidate where
  id : Nat
  kind : OvKind
  isInvalid : Bool
  inClassContext : Bool
  argLabels : Nat
  isStatic : Bool
  isObjC : Bool
  objCSelectorMatches : Bool
  isFactoryInit : Bool
  tyEqual : Bool
  canOverrideTy : Bool
  parentHasSetter : Bool
  propertyTyCanOverride : Bool
  silentDifference : Bool
  settableFromOverrideDC : Bool
  isLet : Bool
  inExtension : Bool
  requiresOverrideKeyword : Bool
deriving DecidableEq

/-- Model of areOverrideCompatibleSimple (lines 4147-4167): the argument
label counts must agree, and methods and properties must agree on being
static; initializers and subscripts carry no static bit in this language
version. -/
def areOverrideCompatibleSimple (decl : OvDecl) (parentDecl : OvCandidate) : Bool :=
  if decl.argLabels ≠ parentDecl.argLabels then false
  else
    match decl.kind with
    | .funcKind => decl.isStatic == parentDecl.isStatic
    | .varKind => decl.isStatic == parentDecl.isStatic
    | _ => true

/-- The Objective-C match test of lines 4413-4429: both sides exposed to the
foreign runtime, and the selectors (methods and initializers) or subscript
kinds agree; properties are always matched by name only. -/
def objCMatchOf (decl : OvDecl) (m : OvCandidate) : Bool :=
  decl.isObjC && m.isObjC &&
    (match decl.kind with
     | .funcKind => m.objCSelectorMatches
     | .ctorKind => m.objCSelectorMatches
     | .subscriptKind => m.objCSelectorMatches
     | .varKind => false)

/-- Outcome of the candidate loop (lines 4388-4496): either the serious
Objective-C selector match with a type mismatch (an immediate error return),
or the collected matches, each paired with its exactness bit, together with
the hadExactMatch flag. -/
inductive OvSearch
  | objcTypeMismatch
  | finished (ms : List (OvCandidate × Bool)) (hadExactMatch : Bool)
deriving DecidableEq

/-- Model of the candidate loop of checkOverrides (lines 4388-4496):
invalid members, members of a different kind, members outside a class
context and members failing areOverrideCompatibleSimple are skipped;
factory initializers cannot be overridden; a type equal candidate is an
exact match; a property candidate is provisionally accepted regardless of
type; a covariant candidate is accepted with exactness equal to its
Objective-C match bit; a failed match with an Objective-C selector match is
the serious mismatch error. -/
def checkOverridesLoop (decl : OvDecl) :
    List OvCandidate → List (OvCandidate × Bool) → Bool → OvSearch
  | [], ms, he => .finished ms he
  | m :: rest, ms, he =>
    if m.isInvalid then checkOverridesLoop decl rest ms he
    else if m.kind ≠ decl.kind then checkOverridesLoop decl rest ms he
    else if ¬ m.inClassContext then checkOverridesLoop decl rest ms he
    else if ¬ areOverrideCompatibleSimple decl m then checkOverridesLoop decl rest ms he
    else if decl.kind = .ctorKind ∧ m.isFactoryInit then checkOverridesLoop decl rest ms he
    else if m.tyEqual then checkOverridesLoop decl rest (ms ++ [(m, true)]) true
    else if m.kind = .varKind then checkOverridesLoop decl rest (ms ++ [(m, false)]) he
    else if m.canOverrideTy then
      checkOverridesLoop decl rest (ms ++ [(m, objCMatchOf decl m)]) (he || objCMatchOf decl m)
    else if objCMatchOf decl m then .objcTypeMismatch
    else checkOverridesLoop decl rest ms he

/-- Diagnostics of override resolution that decide control flow or list
candidates.  Purely advisory diagnostics (argument name fixits, ownership,
accessibility, availability and unnecessary IUO warnings, lines 4528-4601
and 4984-5009) only emit text and are not modelled. -/
inductive OvDiag
  | objcTypeMismatch
  | overriddenHereWithType
  | mutableCovariantSubscript (id : Nat)
  | propertyTypeMismatch (id : Nat)
  | mutableCovariantProperty (id : Nat)
  | multipleDecls (retried : Bool)
  | listedCandidate (retried : Bool) (id : Nat)
  | overrideWithStoredProperty (id : Nat)
  | observingReadonlyProperty (id : Nat)
  | overrideMutableWithReadonly (id : Nat)
  | overrideLetProperty (id : Nat)
  | overrideDeclExtension (id : Nat)
  | missingOverride
deriving DecidableEq

/-- Result of checkOverrides: the boolean error return of the source, the
recorded override link if any, and the modelled diagnostics. -/
structure OvResult where
  errored : Bool
  link : Option Nat
  diags : List OvDiag
deriving DecidableEq

/-- Model of recordOverride (lines 4905-5064): for storage declarations the
stored property, observer, settability and let checks may reject the
override with an error before anything is recorded; members of extensions
cannot take part in an override unless Objective-C; the missing override
keyword is diagnosed but the override is still recorded.  The accessor
level re-linking (lines 5026-5058) mirrors the outer link and is outside
this model. -/
def recordOverride (decl : OvDecl) (base : OvCandidate) : OvResult :=
  let storageBad : Option OvDiag :=
    if decl.kind = .varKind ∨ decl.kind = .subscriptKind then
      if decl.hasStorage ∧ ¬ decl.hasObservers then
        some (.overrideWithStoredProperty base.id)
      else if decl.hasObservers ∧ ¬ base.settableFromOverrideDC then
        some (.observingReadonlyProperty base.id)
      else if base.settableFromOverrideDC ∧ ¬ decl.isSettable then
        some (.overrideMutableWithReadonly base.id)
      else if base.kind = .varKind ∧ base.isLet then
        some (.overrideLetProperty base.id)
      else none
    else none
  match storageBad with
  | some d => ⟨true, none, [d]⟩
  | none =>
    if (base.inExtension ∨ decl.inExtension) ∧ ¬ base.isObjC then
      ⟨true, none, [.overrideDeclExtension base.id]⟩
    else
      let ds := if ¬ decl.hasOverrideAttr ∧ base.requiresOverrideKeyword then
          [OvDiag.missingOverride]
        else []
      ⟨false, some base.id, ds⟩

/-- Model of the single match path (lines 4522-4643): an exact type match
records the override; a method match records it (after advisory IUO
diagnostics); a covariant subscript match is rejected when the overridden
subscript is mutable; a property match is rejected when the property types
are incompatible or when the overridden property is mutable and the
difference is not merely optionality sugar. -/
def checkSingleMatch (decl : OvDecl) (m : OvCandidate) : OvResult :=
  if m.tyEqual then recordOverride decl m
  else
    match decl.kind with
    | .funcKind => recordOverride decl m
    | .ctorKind => recordOverride decl m
    | .subscriptKind =>
      if m.parentHasSetter then ⟨true, none, [.mutableCovariantSubscript m.id]⟩
      else recordOverride decl m
    | .varKind =>
      if ¬ m.propertyTyCanOverride then ⟨true, none, [.propertyTypeMismatch m.id]⟩
      else if m.parentHasSetter ∧ ¬ m.silentDifference then
        ⟨true, none, [.mutableCovariantProperty m.id]⟩
      else recordOverride decl m

/-- Model of the selection phase (lines 4514-4664): when some candidate was
an exact match, every non exact match is erased; a single remaining match is
taken; several remaining matches are the ambiguity error, listing every one
of them, with no override recorded. -/
def selectOverride (decl : OvDecl) (retried : Bool)
    (ms : List (OvCandidate × Bool)) (hadExact : Bool) : OvResult :=
  let surv := if hadExact then ms.filter (fun p => p.2) else ms
  match surv with
  | [] => ⟨false, none, []⟩
  | [(m, _)] => checkSingleMatch decl m
  | _ =>
    ⟨true, none,
      [OvDiag.multipleDecls retried] ++
        surv.map (fun p => OvDiag.listedCandidate retried p.1.id)⟩

/-- Model of DeclChecker::checkOverrides (lines 4323-4665).  The primary
list is the name lookup result for the full name in the superclass; the
fallback list is the lookup result for the bare base name, consulted once
when the primary search found nothing, the name has argument labels and the
declaration carries an explicit override attribute (lines 4498-4512). -/
def checkOverrides (decl : OvDecl) (primary fallback : List OvCandidate) : OvResult :=
  if decl.isInvalid ∨ decl.hasOverriddenDecl then ⟨false, none, []⟩
  else if ¬ decl.hasSuperclass then ⟨false, none, []⟩
  else if decl.isAccessor then ⟨false, none, []⟩
  else
    match checkOverridesLoop decl primary [] false with
    | .objcTypeMismatch => ⟨true, none, [.objcTypeMismatch, .overriddenHereWithType]⟩
    | .finished [] _ =>
      if decl.nameIsSimple ∨ decl.argLabels = 0 ∨ ¬ decl.hasOverrideAttr then
        ⟨false, none, []⟩
      else
        match checkOverridesLoop decl fallback [] false with
        | .objcTypeMismatch => ⟨true, none, [.objcTypeMismatch, .overriddenHereWithType]⟩
        | .finished [] _ => ⟨false, none, []⟩
        | .finished ms he => selectOverride decl true ms he
    | .finished ms he => selectOverride decl false ms he

/-! ## Part 5: the validation driver prologue (TypeChecker::validateDecl,
lines 5606-5627) -/

/-- Kinds relevant to the driver prologue: nominal types and extensions are
the contexts that get validated first; generic type parameters skip the
context validation entirely (lines 5612-5614). -/
inductive VDeclKind
  | nominalKind
  | extensionKind
  | genericParamKind
  | otherKind
deriving DecidableEq

/-- Static description of one declaration for the driver: its kind and its
declaration context, if any. -/
structure VDeclInfo where
  kind : VDeclKind
  declContext : Option Nat

/-- The declaration table. -/
structure VEnv where
  info : Nat → VDeclInfo

/-- Driver state: the list of declarations whose validation completed, in
completion order (the per kind switch of validateDecl computes the type of
the declaration; a declaration that already has a type returns at once, so
completion is recorded once), and the isBeingTypeChecked flags the guard at
lines 5617 and 5622 reads. -/
structure VState where
  validatedTrace : List Nat
  isBeingTypeChecked : Nat → Bool

/-- The kind specific body of validateDecl (the switch at lines 5629 on),
abstracted to its completion effect: an already validated declaration is a
no-op, otherwise the declaration completes validation now. -/
def validateBody (s : VState) (d : Nat) : VState :=
  if d ∈ s.validatedTrace then s
  else { s with validatedTrace := s.validatedTrace ++ [d] }

/-- Model of the prologue of TypeChecker::validateDecl (lines 5606-5627):
except for generic type parameters, a declaration whose context is a nominal
type first validates that context - unless the context is already being
type checked, in which case the whole call returns at once with the
degraded current state; an extension context is validated through
validateExtension (line 6217), modelled by its completion effect.  The fuel
bounds the recursion through contexts; any fuel above the declaration
number suffices when contexts precede their members. -/
def validateDecl (env : VEnv) : Nat → VState → Nat → VState
  | 0, s, _ => s
  | fuel + 1, s, d =>
    if (env.info d).kind = .genericParamKind then validateBody s d
    else
      match (env.info d).declContext with
      | none => validateBody s d
      | some c =>
        match (env.info c).kind with
        | .nominalKind =>
          if s.isBeingTypeChecked c then s
          else validateBody (validateDecl env fuel s c) d
        | .extensionKind =>
          if s.isBeingTypeChecked c then s
          else validateBody (validateBody s c) d
        | _ => validateBody s d

/-! ## Infrastructure predicates used by the verification theorems -/

/-- Invariant of the raw value loop: assigned indices stay below the running
index, every assigned raw value has its key in the uniqueness map, and any
two assigned values with equal keys produced the duplicate diagnostic at the
later one. -/
def RVInv (i0 : Nat) (st : RVState) : Prop :=
  (∀ p ∈ st.assigned, p.1 < i0) ∧
  (∀ p ∈ st.assigned,
    (findRawValue (RawValueKey.ofExpr p.2) st.uniqueRawValues).isSome = true) ∧
  (∀ p q, p ∈ st.assigned → q ∈ st.assigned →
    (RawValueKey.ofExpr p.2).isEqual (RawValueKey.ofExpr q.2) = true →
    p.1 < q.1 → RVDiag.rawValueNotUnique q.1 ∈ st.diags)

/-- The duplicate inheritance diagnostics that concern the type C. -/
def isDupFor (C : InheritedTy) : CIDiag → Bool
  | .duplicateInheritance _ t _ => t == C
  | _ => false

/-- State evolution of one circularity traversal: markers never regress
toward Unchecked, Checked is absorbing, Checking arises only from Checking
(for a completed call), and parent edges are only ever cleared. -/
def CircAdvance (s s2 : CircCtx) : Prop :=
  (∀ x, s.circ x ≠ .Unchecked → s2.circ x ≠ .Unchecked) ∧
  (∀ x, s.circ x = .Checked → s2.circ x = .Checked) ∧
  (∀ x, s2.circ x = .Checking → s.circ x = .Checking) ∧
  (∀ x, s2.parents x = s.parents x ∨ s2.parents x = [])

/-! ## Verification theorems -/

theorem RawValueKey.isEqual_iff (a b : RawValueKey) : a.isEqual b = true ↔ a = b := by
  cases a <;> cases b <;> simp [RawValueKey.isEqual]

theorem Float64.natMag_eq_zero_iff (f : Float64) :
    f.natMag = 0 ↔ f.exp = 0 ∧ f.frac = 0 := by
  unfold Float64.natMag
  by_cases h : f.exp = 0
  · simp [h]
  · simp only [if_neg h]
    constructor
    · intro hz
      exfalso
      have hp : 0 < (2 ^ 52 + f.frac) * 2 ^ (f.exp - 1) := by positivity
      omega
    · intro hc
      exact absurd hc.1 h

theorem pow52_mul_le_inj (a b ea eb : Nat) (ha : a < 2 ^ 52) (hb : b < 2 ^ 52)
    (hle : ea ≤ eb)
    (h : (2 ^ 52 + a) * 2 ^ ea = (2 ^ 52 + b) * 2 ^ eb) : ea = eb ∧ a = b := by
  have hsplit : eb = ea + (eb - ea) := (Nat.add_sub_cancel' hle).symm
  rw [hsplit, pow_add, ← Nat.mul_assoc, Nat.mul_right_comm] at h
  have hc := Nat.eq_of_mul_eq_mul_right (Nat.pos_pow_of_pos ea (by norm_num)) h
  rcases hd : eb - ea with _ | k
  · rw [hd, pow_zero, Nat.mul_one] at hc
    exact ⟨by omega, by omega⟩
  · exfalso
    rw [hd] at hc
    have h2 : (2 : Nat) ≤ 2 ^ (k + 1) := by
      calc (2 : Nat) = 2 ^ 1 := by norm_num
        _ ≤ 2 ^ (k + 1) := Nat.pow_le_pow_right (by norm_num) (by omega)
    have h3 : (2 ^ 52 + b) * 2 ≤ (2 ^ 52 + b) * 2 ^ (k + 1) :=
      Nat.mul_le_mul_left _ h2
    omega

theorem Float64.natMag_inj (f g : Float64)
    (hf : f.frac < 2 ^ 52) (hg : g.frac < 2 ^ 52)
    (h : f.natMag = g.natMag) (hne : f.natMag ≠ 0) :
    f.exp = g.exp ∧ f.frac = g.frac := by
  unfold Float64.natMag at h hne
  by_cases hfe : f.exp = 0 <;> by_cases hge : g.exp = 0
  · rw [if_pos hfe, if_pos hge] at h
    exact ⟨hfe.trans hge.symm, h⟩
  · rw [if_pos hfe, if_neg hge] at h
    exfalso
    have h1 : (2 : Nat) ^ 52 ≤ (2 ^ 52 + g.frac) * 2 ^ (g.exp - 1) := by
      calc (2 : Nat) ^ 52 ≤ 2 ^ 52 + g.frac := Nat.le_add_right _ _
        _ ≤ (2 ^ 52 + g.frac) * 2 ^ (g.exp - 1) :=
          Nat.le_mul_of_pos_right _ (Nat.pos_pow_of_pos _ (by norm_num))
    rw [← h] at h1
    omega
  · rw [if_neg hfe, if_pos hge] at h
    exfalso
    have h1 : (2 : Nat) ^ 52 ≤ (2 ^ 52 + f.frac) * 2 ^ (f.exp - 1) := by
      calc (2 : Nat) ^ 52 ≤ 2 ^ 52 + f.frac := Nat.le_add_right _ _
        _ ≤ (2 ^ 52 + f.frac) * 2 ^ (f.exp - 1) :=
          Nat.le_mul_of_pos_right _ (Nat.pos_pow_of_pos _ (by norm_num))
    rw [h] at h1
    omega
  · rw [if_neg hfe, if_neg hge] at h
    rcases Nat.le_total (f.exp - 1) (g.exp - 1) with hle | hle
    · obtain ⟨he, hfr⟩ := pow52_mul_le_inj f.frac g.frac _ _ hf hg hle h
      exact ⟨by omega, hfr⟩
    · obtain ⟨he, hfr⟩ := pow52_mul_le_inj g.frac f.frac _ _ hg hf hle h.symm
      exact ⟨by omega, hfr.symm⟩

theorem Float64.scaledValue_natAbs (f : Float64) :
    f.scaledValue.natAbs = f.natMag := by
  unfold Float64.scaledValue
  by_cases h : f.sign <;> simp [h]

theorem Float64.scaledValue_eq_zeros (f g : Float64)
    (hf : f.wf) (hg : g.wf)
    (h : f.scaledValue = g.scaledValue) (hne : f ≠ g) :
    f.exp = 0 ∧ f.frac = 0 ∧ g.exp = 0 ∧ g.frac = 0 ∧ f.sign ≠ g.sign := by
  have hmag : f.natMag = g.natMag := by
    rw [← Float64.scaledValue_natAbs, ← Float64.scaledValue_natAbs, h]
  by_cases hz : f.natMag = 0
  · have hz2 : g.natMag = 0 := hmag ▸ hz
    obtain ⟨hfe, hff⟩ := (Float64.natMag_eq_zero_iff f).mp hz
    obtain ⟨hge, hgf⟩ := (Float64.natMag_eq_zero_iff g).mp hz2
    refine ⟨hfe, hff, hge, hgf, ?_⟩
    intro hs
    apply hne
    obtain ⟨fs, fe, ff⟩ := f
    obtain ⟨gs, ge, gf⟩ := g
    simp_all
  · exfalso
    obtain ⟨he, hfr⟩ := Float64.natMag_inj f g hf.2 hg.2 hmag hz
    have hs : f.sign = g.sign := by
      unfold Float64.scaledValue at h
      rw [hmag] at h
      by_cases h1 : f.sign <;> by_cases h2 : g.sign <;> simp [h1, h2] at h ⊢
      · -- f.sign true, g.sign false: -(mag) = mag → mag = 0
        have : (g.natMag : Int) = 0 := by omega
        exact absurd (by exact_mod_cast this) (hmag ▸ hz)
      · have : (g.natMag : Int) = 0 := by omega
        exact absurd (by exact_mod_cast this) (hmag ▸ hz)
    apply hne
    obtain ⟨fs, fe, ff⟩ := f
    obtain ⟨gs, ge, gf⟩ := g
    simp_all

theorem findRawValue_append_some (key : RawValueKey)
    (l1 l2 : List (RawValueKey × Nat × Option Nat)) (e : Nat × Option Nat)
    (h : findRawValue key l1 = some e) :
    findRawValue key (l1 ++ l2) = some e := by
  induction l1 with
  | nil => simp [findRawValue] at h
  | cons x rest ih =>
    obtain ⟨k, v⟩ := x
    simp only [findRawValue, List.cons_append] at h ⊢
    by_cases hk : k.isEqual key = true
    · simpa [hk] using h
    · simp only [hk] at h ⊢
      simp at hk
      simp [hk]
      exact ih h

theorem findRawValue_append_none (key : RawValueKey)
    (l1 l2 : List (RawValueKey × Nat × Option Nat))
    (h : findRawValue key l1 = none) :
    findRawValue key (l1 ++ l2) = findRawValue key l2 := by
  induction l1 with
  | nil => simp
  | cons x rest ih =>
    obtain ⟨k, v⟩ := x
    simp only [findRawValue, List.cons_append] at h ⊢
    by_cases hk : k.isEqual key = true
    · simp [hk] at h
    · simp only [hk] at h ⊢
      simp at hk
      simp [hk]
      exact ih h

theorem findRawValue_singleton_self (key : RawValueKey) (v : Nat × Option Nat) :
    findRawValue key [(key, v)] = some v := by
  simp [findRawValue, (RawValueKey.isEqual_iff key key).mpr rfl]

theorem RVInv_record (k : AutomaticEnumValueKind) (st : RVState) (i : Nat)
    (rv : LiteralExpr) (h : RVInv i st) :
    RVInv (i + 1) (recordRawValue k st i rv) := by
  obtain ⟨hidx, hmap, hdup⟩ := h
  unfold recordRawValue
  cases hfind : findRawValue (RawValueKey.ofExpr rv) st.uniqueRawValues with
  | none =>
    simp only [hfind]
    refine ⟨?_, ?_, ?_⟩
    · intro p hp
      simp only [List.mem_append, List.mem_singleton] at hp
      rcases hp with hp | hp
      · exact Nat.lt_succ_of_lt (hidx p hp)
      · subst hp; exact Nat.lt_succ_self i
    · intro p hp
      simp only [List.mem_append, List.mem_singleton] at hp
      rcases hp with hp | hp
      · obtain ⟨e, he⟩ := Option.isSome_iff_exists.mp (hmap p hp)
        rw [findRawValue_append_some _ _ _ _ he]
        rfl
      · subst hp
        rw [findRawValue_append_none _ _ _ hfind, findRawValue_singleton_self]
        rfl
    · intro p q hp hq hk hlt
      simp only [List.mem_append, List.mem_singleton] at hp hq
      rcases hp with hp | hp <;> rcases hq with hq | hq
      · exact hdup p q hp hq hk hlt
      · exfalso
        subst hq
        have : RawValueKey.ofExpr p.2 = RawValueKey.ofExpr rv :=
          (RawValueKey.isEqual_iff _ _).mp hk
        have h2 := hmap p hp
        rw [this, hfind] at h2
        simp at h2
      · exfalso
        subst hp
        have := hidx q hq
        omega
      · exfalso
        subst hp; subst hq
        omega
  | some found =>
    obtain ⟨foundElt, foundLast⟩ := found
    simp only [hfind]
    refine ⟨?_, ?_, ?_⟩
    · intro p hp
      simp only [List.mem_append, List.mem_singleton] at hp
      rcases hp with hp | hp
      · exact Nat.lt_succ_of_lt (hidx p hp)
      · subst hp; exact Nat.lt_succ_self i
    · intro p hp
      simp only [List.mem_append, List.mem_singleton] at hp
      rcases hp with hp | hp
      · exact hmap p hp
      · subst hp
        rw [hfind]
        rfl
    · intro p q hp hq hk hlt
      simp only [List.mem_append, List.mem_singleton] at hp hq
      rcases hp with hp | hp <;> rcases hq with hq | hq
      · exact List.mem_append_left _ (List.mem_append_left _ (List.mem_append_left _
          (List.mem_append_left _ (hdup p q hp hq hk hlt))))
      · subst hq
        simp
      · exfalso
        subst hp
        have := hidx q hq
        omega
      · exfalso
        subst hp; subst hq
        omega

theorem RVInv_mono (i j : Nat) (st : RVState) (hij : i ≤ j) (h : RVInv i st) :
    RVInv j st :=
  ⟨fun p hp => Nat.lt_of_lt_of_le (h.1 p hp) hij, h.2.1, h.2.2⟩

theorem RVInv_addDiags (i : Nat) (st : RVState) (ds : List RVDiag)
    (h : RVInv i st) : RVInv i { st with diags := st.diags ++ ds } :=
  ⟨h.1, h.2.1, fun p q hp hq hk hlt =>
    List.mem_append_left _ (h.2.2 p q hp hq hk hlt)⟩

theorem RVInv_step (k : AutomaticEnumValueKind) (st : RVState) (i : Nat)
    (elt : EnumElementDecl) (h : RVInv i st) :
    RVInv (i + 1) (checkRawValueElt k st i elt).1 := by
  unfold checkRawValueElt
  by_cases h1 : elt.isInvalid
  · simp only [h1, if_true]
    exact RVInv_mono i (i + 1) st (Nat.le_succ i) h
  · simp only [h1, if_false, Bool.false_eq_true]
    by_cases h2 : elt.hasArgumentType
    · simp only [h2, if_true]
      exact RVInv_mono _ _ _ (Nat.le_succ i) (RVInv_addDiags i st _ h)
    · simp only [h2, if_false, Bool.false_eq_true]
      cases hrv : elt.rawValueExpr with
      | some rawValue =>
        simp only
        exact RVInv_record k _ i rawValue h
      | none =>
        simp only
        cases hauto : getAutomaticRawValueExpr k i elt.name st.prevValue with
        | mk fst ds =>
          cases fst with
          | none =>
            simp only
            exact RVInv_mono _ _ _ (Nat.le_succ i) (RVInv_addDiags i st ds h)
          | some nextValue =>
            simp only
            exact RVInv_record k _ i nextValue (RVInv_addDiags i st ds h)

theorem RVInv_loop (k : AutomaticEnumValueKind) (elems : List EnumElementDecl) :
    ∀ (st : RVState) (i0 : Nat), RVInv i0 st →
      ∃ m, RVInv m (checkRawValuesLoop k st i0 elems) := by
  induction elems with
  | nil => intro st i0 h; exact ⟨i0, h⟩
  | cons elt rest ih =>
    intro st i0 h
    have hstep := RVInv_step k st i0 elt h
    unfold checkRawValuesLoop
    cases hres : checkRawValueElt k st i0 elt with
    | mk st2 cont =>
      rw [hres] at hstep
      cases cont
      · exact ⟨i0 + 1, hstep⟩
      · exact ih st2 (i0 + 1) hstep

theorem checkEnumRawValues_collision (k : AutomaticEnumValueKind)
    (elems : List EnumElementDecl) (i j : Nat) (ri rj : LiteralExpr)
    (hi : (i, ri) ∈ (checkEnumRawValues k elems).assigned)
    (hj : (j, rj) ∈ (checkEnumRawValues k elems).assigned)
    (hk : (RawValueKey.ofExpr ri).isEqual (RawValueKey.ofExpr rj) = true)
    (hij : i < j) :
    RVDiag.rawValueNotUnique j ∈ (checkEnumRawValues k elems).diags := by
  unfold checkEnumRawValues at hi hj ⊢
  by_cases he : elems.isEmpty
  · simp [he, initialRVState] at hi
  · simp only [he, Bool.false_eq_true, if_false] at hi hj ⊢
    have hInit : RVInv 0 initialRVState := by
      refine ⟨?_, ?_, ?_⟩
      · intro p hp; simp [initialRVState] at hp
      · intro p hp; simp [initialRVState] at hp
      · intro p q hp hq hk2 hlt; simp [initialRVState] at hp
    obtain ⟨m, hInv⟩ := RVInv_loop k elems initialRVState 0 hInit
    exact hInv.2.2 (i, ri) (j, rj) hi hj hk hij

set_option maxRecDepth 8000

theorem C1_float_bit_exactness_and_integer_duplicates :
    (∀ f g : Float64, f.wf → g.wf → f.isFinite → g.isFinite →
      f.scaledValue = g.scaledValue → f.bits64 ≠ g.bits64 →
      (RawValueKey.ofExpr (.floatLiteral f)).isEqual
        (RawValueKey.ofExpr (.floatLiteral g)) = false) ∧
    (∀ (elems : List EnumElementDecl) (i j : Nat) (v : Int),
      (i, LiteralExpr.integerLiteral v) ∈ (checkEnumRawValues .Integer elems).assigned →
      (j, LiteralExpr.integerLiteral v) ∈ (checkEnumRawValues .Integer elems).assigned →
      i < j →
      RVDiag.rawValueNotUnique j ∈ (checkEnumRawValues .Integer elems).diags) := by
  constructor
  · intro f g hf hg hff hgf hv hb
    have hne : f ≠ g := fun hEq => hb (congrArg Float64.bits64 hEq)
    obtain ⟨hfe, hffr, hge, hgfr, hs⟩ := Float64.scaledValue_eq_zeros f g hf hg hv hne
    obtain ⟨fs, fe, ffr⟩ := f
    obtain ⟨gs, ge, gfr⟩ := g
    dsimp only at hfe hffr hge hgfr hs
    subst hfe; subst hffr; subst hge; subst hgfr
    cases fs <;> cases gs
    · exact absurd rfl hs
    · decide
    · decide
    · exact absurd rfl hs
  · intro elems i j v hi hj hij
    exact checkEnumRawValues_collision .Integer elems i j _ _ hi hj
      ((RawValueKey.isEqual_iff _ _).mpr rfl) hij

theorem C1_witness :
    ((Float64.mk false 0 0).wf ∧ (Float64.mk true 0 0).wf ∧
     (Float64.mk false 0 0).isFinite ∧ (Float64.mk true 0 0).isFinite ∧
     (Float64.mk false 0 0).scaledValue = (Float64.mk true 0 0).scaledValue ∧
     (Float64.mk false 0 0).bits64 ≠ (Float64.mk true 0 0).bits64 ∧
     (RawValueKey.ofExpr (.floatLiteral ⟨false, 0, 0⟩)).isEqual
       (RawValueKey.ofExpr (.floatLiteral ⟨true, 0, 0⟩)) = false) ∧
    ((0, LiteralExpr.integerLiteral 1) ∈
       (checkEnumRawValues .Integer
         [⟨"a", false, false, some (.integerLiteral 1)⟩,
          ⟨"b", false, false, some (.integerLiteral 0)⟩,
          ⟨"c", false, false, none⟩]).assigned ∧
     (2, LiteralExpr.integerLiteral 1) ∈
       (checkEnumRawValues .Integer
         [⟨"a", false, false, some (.integerLiteral 1)⟩,
          ⟨"b", false, false, some (.integerLiteral 0)⟩,
          ⟨"c", false, false, none⟩]).assigned ∧
     RVDiag.rawValueNotUnique 2 ∈
       (checkEnumRawValues .Integer
         [⟨"a", false, false, some (.integerLiteral 1)⟩,
          ⟨"b", false, false, some (.integerLiteral 0)⟩,
          ⟨"c", false, false, none⟩]).diags) := by
  refine ⟨⟨by decide, by decide, by decide, by decide, by decide, by decide,
    C1_float_bit_exactness_and_integer_duplicates.1 ⟨false, 0, 0⟩ ⟨true, 0, 0⟩
      (by decide) (by decide) (by decide) (by decide) (by decide) (by decide)⟩,
    by decide, by decide,
    C1_float_bit_exactness_and_integer_duplicates.2 _ 0 2 1
      (by decide) (by decide) (by decide)⟩

theorem C4_integer_auto_increment :
    (∀ (eltIdx : Nat) (eltName : String) (p : Int),
      getAutomaticRawValueExpr .Integer eltIdx eltName (some (.integerLiteral p)) =
        (some (.integerLiteral (p + 1)), [])) ∧
    (∀ (eltIdx : Nat) (eltName : String),
      getAutomaticRawValueExpr .Integer eltIdx eltName none =
        (some (.integerLiteral 0), [])) ∧
    (checkEnumRawValues .Integer
        [⟨"a", false, false, none⟩,
         ⟨"b", false, false, some (.integerLiteral 5)⟩,
         ⟨"c", false, false, none⟩]).assigned =
      [(0, .integerLiteral 0), (1, .integerLiteral 5), (2, .integerLiteral 6)] ∧
    (checkEnumRawValues .Integer
        [⟨"a", false, false, none⟩,
         ⟨"b", false, false, some (.integerLiteral 5)⟩,
         ⟨"c", false, false, none⟩]).diags = [] :=
  ⟨fun _ _ _ => rfl, fun _ _ => rfl, by decide, by decide⟩

theorem C10_counterexample :
    (Float64.mk false 1149 0).wf ∧
    (Float64.mk false 1149 0).isFinite ∧
    (Float64.mk false 1149 0).scaledValue = ((2 ^ 126 * 2 ^ 1074 : Nat) : Int) ∧
    -((2 ^ 127 : Nat) : Int) ≤ ((2 ^ 126 : Nat) : Int) ∧
    ((2 ^ 126 : Nat) : Int) < ((2 ^ 127 : Nat) : Int) ∧
    RawValueKey.ofExpr (.floatLiteral (Float64.mk false 1149 0)) =
      .float (Float64.mk false 1149 0).bits64 0 ∧
    (RawValueKey.ofExpr (.floatLiteral (Float64.mk false 1149 0))).isEqual
      (RawValueKey.ofExpr (.integerLiteral ((2 ^ 126 : Nat) : Int))) = false :=
  ⟨by decide, by decide, by decide, by decide, by decide, by decide, by decide⟩

theorem C10_exact_int_float_keyed_as_integer :
    ∀ (f : Float64) (n : Int), f.convertToIntegerExact = some n →
      (RawValueKey.ofExpr (.floatLiteral f) = RawValueKey.ofExpr (.integerLiteral n) ∧
       (RawValueKey.ofExpr (.floatLiteral f)).isEqual
         (RawValueKey.ofExpr (.integerLiteral n)) = true) ∧
      (∀ (k : AutomaticEnumValueKind) (elems : List EnumElementDecl) (i j : Nat),
        (i, LiteralExpr.integerLiteral n) ∈ (checkEnumRawValues k elems).assigned →
        (j, LiteralExpr.floatLiteral f) ∈ (checkEnumRawValues k elems).assigned →
        i < j →
        RVDiag.rawValueNotUnique j ∈ (checkEnumRawValues k elems).diags) := by
  intro f n h
  have hkey : RawValueKey.ofExpr (.floatLiteral f) =
      RawValueKey.ofExpr (.integerLiteral n) := by
    simp [RawValueKey.ofExpr, h]
  refine ⟨⟨hkey, ?_⟩, ?_⟩
  · rw [hkey]
    exact (RawValueKey.isEqual_iff _ _).mpr rfl
  · intro k elems i j hi hj hij
    refine checkEnumRawValues_collision k elems i j _ _ hi hj ?_ hij
    rw [hkey]
    exact (RawValueKey.isEqual_iff _ _).mpr rfl

theorem C10_exact_int_float_keyed_as_integer_witness :
    (Float64.mk false 1023 0).convertToIntegerExact = some 1 ∧
    (RawValueKey.ofExpr (.floatLiteral ⟨false, 1023, 0⟩)).isEqual
      (RawValueKey.ofExpr (.integerLiteral 1)) = true ∧
    RVDiag.rawValueNotUnique 1 ∈
      (checkEnumRawValues .None
        [⟨"a", false, false, some (.integerLiteral 1)⟩,
         ⟨"b", false, false, some (.floatLiteral ⟨false, 1023, 0⟩)⟩]).diags := by
  refine ⟨by decide,
    (C10_exact_int_float_keyed_as_integer ⟨false, 1023, 0⟩ 1 (by decide)).1.2,
    (C10_exact_int_float_keyed_as_integer ⟨false, 1023, 0⟩ 1 (by decide)).2
      .None _ 0 1 (by decide) (by decide) (by decide)⟩

theorem processEntry_superclass_persists (k : CIDeclKind) (st : CIState) (i : Nat)
    (e : InheritedEntry) (T : InheritedTy) (h : st.superclassTy = some T) :
    (processInheritedEntry k st i e).superclassTy = some T := by
  unfold processInheritedEntry
  repeat' split
  all_goals simp_all

theorem processEntry_diags_mono (k : CIDeclKind) (st : CIState) (i : Nat)
    (e : InheritedEntry) (d : CIDiag) (h : d ∈ st.diags) :
    d ∈ (processInheritedEntry k st i e).diags := by
  unfold processInheritedEntry
  cases hsup : st.superclassTy <;> (repeat' split) <;> simp_all

theorem processEntry_invalid_mono (k : CIDeclKind) (st : CIState) (i : Nat)
    (e : InheritedEntry) (j : Nat) (h : j ∈ st.invalidEntries) :
    j ∈ (processInheritedEntry k st i e).invalidEntries := by
  unfold processInheritedEntry
  cases hsup : st.superclassTy <;> (repeat' split) <;> simp_all

theorem runEntries_superclass_persists (k : CIDeclKind) (l : List InheritedEntry) :
    ∀ (st : CIState) (i : Nat) (T : InheritedTy), st.superclassTy = some T →
      (runInheritedEntries k st i l).superclassTy = some T := by
  induction l with
  | nil => intro st i T h; exact h
  | cons e rest ih =>
    intro st i T h
    exact ih _ _ T (processEntry_superclass_persists k st i e T h)

theorem runEntries_diags_mono (k : CIDeclKind) (l : List InheritedEntry) :
    ∀ (st : CIState) (i : Nat) (d : CIDiag), d ∈ st.diags →
      d ∈ (runInheritedEntries k st i l).diags := by
  induction l with
  | nil => intro st i d h; exact h
  | cons e rest ih =>
    intro st i d h
    exact ih _ _ d (processEntry_diags_mono k st i e d h)

theorem runEntries_invalid_mono (k : CIDeclKind) (l : List InheritedEntry) :
    ∀ (st : CIState) (i : Nat) (j : Nat), j ∈ st.invalidEntries →
      j ∈ (runInheritedEntries k st i l).invalidEntries := by
  induction l with
  | nil => intro st i j h; exact h
  | cons e rest ih =>
    intro st i j h
    exact ih _ _ j (processEntry_invalid_mono k st i e j h)

theorem runEntries_append (k : CIDeclKind) (l1 l2 : List InheritedEntry) :
    ∀ (st : CIState) (i : Nat),
      runInheritedEntries k st i (l1 ++ l2) =
        runInheritedEntries k (runInheritedEntries k st i l1) (i + l1.length) l2 := by
  induction l1 with
  | nil => intro st i; simp [runInheritedEntries]
  | cons e rest ih =>
    intro st i
    simp only [List.cons_append, runInheritedEntries, List.length_cons, List.append_eq]
    rw [ih]
    congr 1
    omega


theorem processEntry_second_classTy (st : CIState) (i : Nat) (e : InheritedEntry)
    (T : InheritedTy) (u : Nat)
    (h : st.superclassTy = some T) (h1 : e.validationFails = false)
    (h2 : e.ty = .classTy u) (h3 : lookupInherited e.ty st.inheritedTypes = none) :
    processInheritedEntry .classKind st i e =
      { st with inheritedTypes := st.inheritedTypes ++ [(e.ty, i)]
                diags := st.diags ++ [.multipleInheritance i T e.ty]
                invalidEntries := st.invalidEntries ++ [i] } := by
  unfold processInheritedEntry
  rw [h2] at h3 ⊢
  simp [h1, h3, h, InheritedTy.isClass]

theorem processEntry_second_rawTy (st : CIState) (i : Nat) (e : InheritedEntry)
    (T : InheritedTy)
    (h : st.superclassTy = some T) (h1 : e.validationFails = false)
    (h2 : e.ty.isExistential = false) (h2b : e.ty ≠ .errorTy)
    (h3 : lookupInherited e.ty st.inheritedTypes = none) :
    processInheritedEntry .enumKind st i e =
      { st with inheritedTypes := st.inheritedTypes ++ [(e.ty, i)]
                diags := st.diags ++ [.multipleEnumRawTypes i T e.ty]
                invalidEntries := st.invalidEntries ++ [i] } := by
  cases hty : e.ty with
  | errorTy => exact absurd hty h2b
  | existential ps => rw [hty] at h2; simp [InheritedTy.isExistential] at h2
  | classTy u =>
    unfold processInheritedEntry
    rw [hty] at h3 ⊢
    simp [h1, h3, h]
  | otherTy u =>
    unfold processInheritedEntry
    rw [hty] at h3 ⊢
    simp [h1, h3, h]

theorem C5_at_most_one_superclass_and_raw_type :
    (∀ (implicit : List Nat) (inheritsFrom : Nat → Nat → Bool)
       (pre : List InheritedEntry) (e : InheritedEntry) (post : List InheritedEntry)
       (T : InheritedTy) (u : Nat),
      (runInheritedEntries .classKind (initCIState implicit) 0 pre).superclassTy = some T →
      e.validationFails = false → e.ty = .classTy u →
      lookupInherited e.ty
        (runInheritedEntries .classKind (initCIState implicit) 0 pre).inheritedTypes = none →
      ((checkInheritanceClause .classKind implicit inheritsFrom
          (pre ++ e :: post)).superclass = some T ∧
       CIDiag.multipleInheritance pre.length T e.ty ∈
         (checkInheritanceClause .classKind implicit inheritsFrom
           (pre ++ e :: post)).state.diags ∧
       pre.length ∈
         (checkInheritanceClause .classKind implicit inheritsFrom
           (pre ++ e :: post)).state.invalidEntries)) ∧
    (∀ (implicit : List Nat) (inheritsFrom : Nat → Nat → Bool)
       (pre : List InheritedEntry) (e : InheritedEntry) (post : List InheritedEntry)
       (T : InheritedTy),
      (runInheritedEntries .enumKind (initCIState implicit) 0 pre).superclassTy = some T →
      e.validationFails = false → e.ty.isExistential = false → e.ty ≠ .errorTy →
      lookupInherited e.ty
        (runInheritedEntries .enumKind (initCIState implicit) 0 pre).inheritedTypes = none →
      ((checkInheritanceClause .enumKind implicit inheritsFrom
          (pre ++ e :: post)).rawType = some T ∧
       CIDiag.multipleEnumRawTypes pre.length T e.ty ∈
         (checkInheritanceClause .enumKind implicit inheritsFrom
           (pre ++ e :: post)).state.diags ∧
       pre.length ∈
         (checkInheritanceClause .enumKind implicit inheritsFrom
           (pre ++ e :: post)).state.invalidEntries)) := by
  constructor
  · intro implicit inheritsFrom pre e post T u hsup h1 h2 h3
    have hrun : runInheritedEntries .classKind (initCIState implicit) 0 (pre ++ e :: post) =
        runInheritedEntries .classKind
          (processInheritedEntry .classKind
            (runInheritedEntries .classKind (initCIState implicit) 0 pre) pre.length e)
          (pre.length + 1) post := by
      rw [runEntries_append]
      simp [runInheritedEntries]
    rw [processEntry_second_classTy _ _ _ T u hsup h1 h2 h3] at hrun
    refine ⟨?_, ?_, ?_⟩
    · simp only [checkInheritanceClause]
      rw [hrun]
      exact runEntries_superclass_persists _ post _ _ T hsup
    · simp only [checkInheritanceClause]
      rw [hrun]
      exact runEntries_diags_mono _ post _ _ _ (by simp)
    · simp only [checkInheritanceClause]
      rw [hrun]
      exact runEntries_invalid_mono _ post _ _ _ (by simp)
  · intro implicit inheritsFrom pre e post T hsup h1 h2 h2b h3
    have hrun : runInheritedEntries .enumKind (initCIState implicit) 0 (pre ++ e :: post) =
        runInheritedEntries .enumKind
          (processInheritedEntry .enumKind
            (runInheritedEntries .enumKind (initCIState implicit) 0 pre) pre.length e)
          (pre.length + 1) post := by
      rw [runEntries_append]
      simp [runInheritedEntries]
    rw [processEntry_second_rawTy _ _ _ T hsup h1 h2 h2b h3] at hrun
    refine ⟨?_, ?_, ?_⟩
    · simp only [checkInheritanceClause]
      rw [hrun]
      exact runEntries_superclass_persists _ post _ _ T hsup
    · simp only [checkInheritanceClause]
      rw [hrun]
      exact runEntries_diags_mono _ post _ _ _ (by simp)
    · simp only [checkInheritanceClause]
      rw [hrun]
      exact runEntries_invalid_mono _ post _ _ _ (by simp)

theorem lookupInherited_append_some (C : InheritedTy)
    (l1 l2 : List (InheritedTy × Nat)) (r : Nat)
    (h : lookupInherited C l1 = some r) :
    lookupInherited C (l1 ++ l2) = some r := by
  induction l1 with
  | nil => simp [lookupInherited] at h
  | cons x rest ih =>
    obtain ⟨t, v⟩ := x
    simp only [lookupInherited, List.cons_append] at h ⊢
    by_cases ht : t = C
    · simpa [ht] using h
    · simp only [ht, if_false] at h ⊢
      simp [ht]
      exact ih h

theorem lookupInherited_append_none (C : InheritedTy)
    (l1 l2 : List (InheritedTy × Nat))
    (h : lookupInherited C l1 = none) :
    lookupInherited C (l1 ++ l2) = lookupInherited C l2 := by
  induction l1 with
  | nil => simp
  | cons x rest ih =>
    obtain ⟨t, v⟩ := x
    simp only [lookupInherited, List.cons_append] at h ⊢
    by_cases ht : t = C
    · simp [ht] at h
    · simp only [ht, if_false] at h ⊢
      simp [ht]
      exact ih h

theorem lookupInherited_append_ne (C : InheritedTy) (l : List (InheritedTy × Nat))
    (t : InheritedTy) (i : Nat) (ht : t ≠ C) :
    lookupInherited C (l ++ [(t, i)]) = lookupInherited C l := by
  cases hl : lookupInherited C l with
  | some r => exact lookupInherited_append_some C l _ r hl
  | none =>
    rw [lookupInherited_append_none C l _ hl]
    simp [lookupInherited, ht]

theorem lookupInherited_append_self (C : InheritedTy) (l : List (InheritedTy × Nat))
    (i : Nat) (h : lookupInherited C l = none) :
    lookupInherited C (l ++ [(C, i)]) = some i := by
  rw [lookupInherited_append_none C l _ h]
  simp [lookupInherited]

theorem processEntry_dup_other (k : CIDeclKind) (st : CIState) (i : Nat)
    (e : InheritedEntry) (C : InheritedTy)
    (h : ¬(e.validationFails = false ∧ e.ty = C)) :
    (processInheritedEntry k st i e).diags.filter (isDupFor C) =
      st.diags.filter (isDupFor C) ∧
    lookupInherited C (processInheritedEntry k st i e).inheritedTypes =
      lookupInherited C st.inheritedTypes := by
  by_cases hv : e.validationFails = true
  · unfold processInheritedEntry
    simp [hv]
  · have hv2 : e.validationFails = false := by simpa using hv
    have hty : e.ty ≠ C := fun hh => h ⟨hv2, hh⟩
    have hlk : lookupInherited C (st.inheritedTypes ++ [(e.ty, i)]) =
        lookupInherited C st.inheritedTypes :=
      lookupInherited_append_ne C _ _ i hty
    unfold processInheritedEntry
    cases hsup : st.superclassTy <;> (repeat' split) <;>
      simp_all [List.filter_append, isDupFor]

theorem processEntry_dup_first (k : CIDeclKind) (st : CIState) (i : Nat)
    (e : InheritedEntry) (C : InheritedTy)
    (h1 : e.validationFails = false) (h2 : e.ty = C) (hC : C ≠ .errorTy)
    (hl : lookupInherited C st.inheritedTypes = none) :
    (processInheritedEntry k st i e).diags.filter (isDupFor C) =
      st.diags.filter (isDupFor C) ∧
    lookupInherited C (processInheritedEntry k st i e).inheritedTypes = some i := by
  have hlk : lookupInherited C (st.inheritedTypes ++ [(e.ty, i)]) = some i := by
    rw [h2]
    exact lookupInherited_append_self C _ i hl
  have hl2 : lookupInherited e.ty st.inheritedTypes = none := by rw [h2]; exact hl
  unfold processInheritedEntry
  cases hsup : st.superclassTy <;> (repeat' split) <;>
    simp_all [List.filter_append, isDupFor]

theorem processEntry_dup_hit (k : CIDeclKind) (st : CIState) (i : Nat)
    (e : InheritedEntry) (C : InheritedTy) (r : Nat)
    (h1 : e.validationFails = false) (h2 : e.ty = C) (hC : C ≠ .errorTy)
    (hl : lookupInherited C st.inheritedTypes = some r) :
    (processInheritedEntry k st i e).diags.filter (isDupFor C) =
      st.diags.filter (isDupFor C) ++ [CIDiag.duplicateInheritance i C r] ∧
    lookupInherited C (processInheritedEntry k st i e).inheritedTypes = some r ∧
    i ∈ (processInheritedEntry k st i e).invalidEntries := by
  have hl2 : lookupInherited e.ty st.inheritedTypes = some r := by rw [h2]; exact hl
  unfold processInheritedEntry
  simp [h1, h2, hl2, hl, hC, List.filter_append, isDupFor]

theorem runEntries_dup_other (k : CIDeclKind) (l : List InheritedEntry)
    (C : InheritedTy)
    (hnone : ∀ e ∈ l, ¬(e.validationFails = false ∧ e.ty = C)) :
    ∀ (st : CIState) (i : Nat),
      (runInheritedEntries k st i l).diags.filter (isDupFor C) =
        st.diags.filter (isDupFor C) ∧
      lookupInherited C (runInheritedEntries k st i l).inheritedTypes =
        lookupInherited C st.inheritedTypes := by
  induction l with
  | nil => intro st i; exact ⟨rfl, rfl⟩
  | cons e rest ih =>
    intro st i
    have hstep := processEntry_dup_other k st i e C (hnone e (by simp))
    have hrest := ih (fun x hx => hnone x (by simp [hx])) (processInheritedEntry k st i e) (i + 1)
    exact ⟨hrest.1.trans hstep.1, hrest.2.trans hstep.2⟩

theorem insertProtocol_nodup (p : Nat) (ps : List Nat) (h : ps.Nodup) :
    (insertProtocol p ps).Nodup := by
  unfold insertProtocol
  by_cases hp : p ∈ ps
  · simp [hp, h]
  · simp [hp]
    exact List.Nodup.append h (List.nodup_singleton p) (by simpa using hp)

theorem insertProtocols_nodup (ps : List Nat) :
    ∀ (acc : List Nat), acc.Nodup → (insertProtocols ps acc).Nodup := by
  induction ps with
  | nil => intro acc h; exact h
  | cons p rest ih =>
    intro acc h
    exact ih _ (insertProtocol_nodup p acc h)

theorem processEntry_protocols_nodup (k : CIDeclKind) (st : CIState) (i : Nat)
    (e : InheritedEntry) (h : st.allProtocols.Nodup) :
    (processInheritedEntry k st i e).allProtocols.Nodup := by
  unfold processInheritedEntry
  cases hsup : st.superclassTy <;> (repeat' split) <;>
    simp_all [insertProtocols_nodup, insertProtocol_nodup]

theorem runEntries_protocols_nodup (k : CIDeclKind) (l : List InheritedEntry) :
    ∀ (st : CIState) (i : Nat), st.allProtocols.Nodup →
      (runInheritedEntries k st i l).allProtocols.Nodup := by
  induction l with
  | nil => intro st i h; exact h
  | cons e rest ih =>
    intro st i h
    exact ih _ _ (processEntry_protocols_nodup k st i e h)

theorem C6_duplicate_inheritance_diagnosed_once :
    ∀ (k : CIDeclKind) (implicit : List Nat) (inheritsFrom : Nat → Nat → Bool)
      (pre mid post : List InheritedEntry) (e1 e2 : InheritedEntry) (C : InheritedTy),
      C ≠ .errorTy →
      e1.validationFails = false → e1.ty = C →
      e2.validationFails = false → e2.ty = C →
      (∀ e ∈ pre ++ mid ++ post, ¬(e.validationFails = false ∧ e.ty = C)) →
      ((checkInheritanceClause k implicit inheritsFrom
          (pre ++ e1 :: mid ++ e2 :: post)).state.diags.filter (isDupFor C) =
        [CIDiag.duplicateInheritance (pre.length + 1 + mid.length) C pre.length] ∧
       (pre.length + 1 + mid.length) ∈
        (checkInheritanceClause k implicit inheritsFrom
          (pre ++ e1 :: mid ++ e2 :: post)).state.invalidEntries ∧
       lookupInherited C
        (checkInheritanceClause k implicit inheritsFrom
          (pre ++ e1 :: mid ++ e2 :: post)).state.inheritedTypes = some pre.length ∧
       (checkInheritanceClause k implicit inheritsFrom
          (pre ++ e1 :: mid ++ e2 :: post)).state.allProtocols.Nodup) := by
  intro k implicit inheritsFrom pre mid post e1 e2 C hC hv1 ht1 hv2 ht2 hnone
  have hnpre : ∀ e ∈ pre, ¬(e.validationFails = false ∧ e.ty = C) :=
    fun e he => hnone e (by simp [he])
  have hnmid : ∀ e ∈ mid, ¬(e.validationFails = false ∧ e.ty = C) :=
    fun e he => hnone e (by simp [he])
  have hnpost : ∀ e ∈ post, ¬(e.validationFails = false ∧ e.ty = C) :=
    fun e he => hnone e (by simp [he])
  -- unfold the run over the concatenation
  have hsplit : runInheritedEntries k (initCIState implicit) 0 (pre ++ e1 :: mid ++ e2 :: post) =
      runInheritedEntries k
        (processInheritedEntry k
          (runInheritedEntries k
            (processInheritedEntry k
              (runInheritedEntries k (initCIState implicit) 0 pre)
              pre.length e1)
            (pre.length + 1) mid)
          (pre.length + 1 + mid.length) e2)
        (pre.length + 1 + mid.length + 1) post := by
    rw [runEntries_append]
    simp only [runInheritedEntries]
    rw [runEntries_append]
    simp only [runInheritedEntries, Nat.zero_add, List.length_append, List.length_cons]
    ring_nf
  set st1 := runInheritedEntries k (initCIState implicit) 0 pre with hst1
  have hpre := runEntries_dup_other k pre C hnpre (initCIState implicit) 0
  have hpre1 : st1.diags.filter (isDupFor C) = [] := by
    rw [← hst1] at hpre
    simpa [initCIState] using hpre.1
  have hpre2 : lookupInherited C st1.inheritedTypes = none := by
    rw [← hst1] at hpre
    simpa [initCIState, lookupInherited] using hpre.2
  set st2 := processInheritedEntry k st1 pre.length e1 with hst2
  have he1 := processEntry_dup_first k st1 pre.length e1 C hv1 ht1 hC hpre2
  have he1a : st2.diags.filter (isDupFor C) = [] := by rw [hst2, he1.1, hpre1]
  have he1b : lookupInherited C st2.inheritedTypes = some pre.length := by
    rw [hst2]; exact he1.2
  set st3 := runInheritedEntries k st2 (pre.length + 1) mid with hst3
  have hmid := runEntries_dup_other k mid C hnmid st2 (pre.length + 1)
  have hmid1 : st3.diags.filter (isDupFor C) = [] := by
    rw [hst3, hmid.1, he1a]
  have hmid2 : lookupInherited C st3.inheritedTypes = some pre.length := by
    rw [hst3, hmid.2, he1b]
  set st4 := processInheritedEntry k st3 (pre.length + 1 + mid.length) e2 with hst4
  have he2 := processEntry_dup_hit k st3 (pre.length + 1 + mid.length) e2 C pre.length
    hv2 ht2 hC hmid2
  have he2a : st4.diags.filter (isDupFor C) =
      [CIDiag.duplicateInheritance (pre.length + 1 + mid.length) C pre.length] := by
    rw [hst4, he2.1, hmid1]
    rfl
  have he2b : lookupInherited C st4.inheritedTypes = some pre.length := by
    rw [hst4]; exact he2.2.1
  have he2c : (pre.length + 1 + mid.length) ∈ st4.invalidEntries := by
    rw [hst4]; exact he2.2.2
  set st5 := runInheritedEntries k st4 (pre.length + 1 + mid.length + 1) post with hst5
  have hpost := runEntries_dup_other k post C hnpost st4 (pre.length + 1 + mid.length + 1)
  have hp1 : st5.diags.filter (isDupFor C) =
      [CIDiag.duplicateInheritance (pre.length + 1 + mid.length) C pre.length] := by
    rw [hst5, hpost.1, he2a]
  have hp2 : lookupInherited C st5.inheritedTypes = some pre.length := by
    rw [hst5, hpost.2, he2b]
  have hp3 : (pre.length + 1 + mid.length) ∈ st5.invalidEntries := by
    rw [hst5]
    exact runEntries_invalid_mono k post st4 _ _ he2c
  have hp4 : st5.allProtocols.Nodup := by
    rw [hst5]
    apply runEntries_protocols_nodup
    apply processEntry_protocols_nodup
    apply runEntries_protocols_nodup
    apply processEntry_protocols_nodup
    apply runEntries_protocols_nodup
    exact insertProtocols_nodup implicit [] List.nodup_nil
  have hfinal : runInheritedEntries k (initCIState implicit) 0
      (pre ++ e1 :: mid ++ e2 :: post) = st5 := by
    rw [hsplit, hst5, hst4, hst3, hst2, hst1]
  cases k with
  | protocolKind selfId =>
    simp only [checkInheritanceClause, hfinal]
    by_cases hrem : (pruneCircularProtocols selfId inheritsFrom st5.allProtocols false).2
    · simp only [hrem, if_true]
      refine ⟨?_, hp3, hp2, hp4⟩
      rw [List.filter_append, hp1]
      simp [isDupFor]
    · simp only [hrem]
      exact ⟨hp1, hp3, hp2, hp4⟩
  | classKind =>
    simp only [checkInheritanceClause, hfinal]
    exact ⟨hp1, hp3, hp2, hp4⟩
  | enumKind =>
    simp only [checkInheritanceClause, hfinal]
    exact ⟨hp1, hp3, hp2, hp4⟩
  | structKind =>
    simp only [checkInheritanceClause, hfinal]
    exact ⟨hp1, hp3, hp2, hp4⟩
  | genericParamKind =>
    simp only [checkInheritanceClause, hfinal]
    exact ⟨hp1, hp3, hp2, hp4⟩
  | associatedTypeKind =>
    simp only [checkInheritanceClause, hfinal]
    exact ⟨hp1, hp3, hp2, hp4⟩

theorem C5_witness :
    ((checkInheritanceClause .classKind [] (fun _ _ => false)
        [⟨false, .classTy 1⟩, ⟨false, .classTy 2⟩]).superclass = some (.classTy 1) ∧
     CIDiag.multipleInheritance 1 (.classTy 1) (.classTy 2) ∈
       (checkInheritanceClause .classKind [] (fun _ _ => false)
        [⟨false, .classTy 1⟩, ⟨false, .classTy 2⟩]).state.diags ∧
     1 ∈ (checkInheritanceClause .classKind [] (fun _ _ => false)
        [⟨false, .classTy 1⟩, ⟨false, .classTy 2⟩]).state.invalidEntries) ∧
    ((checkInheritanceClause .enumKind [] (fun _ _ => false)
        [⟨false, .otherTy 3⟩, ⟨false, .otherTy 4⟩]).rawType = some (.otherTy 3) ∧
     CIDiag.multipleEnumRawTypes 1 (.otherTy 3) (.otherTy 4) ∈
       (checkInheritanceClause .enumKind [] (fun _ _ => false)
        [⟨false, .otherTy 3⟩, ⟨false, .otherTy 4⟩]).state.diags ∧
     1 ∈ (checkInheritanceClause .enumKind [] (fun _ _ => false)
        [⟨false, .otherTy 3⟩, ⟨false, .otherTy 4⟩]).state.invalidEntries) := by
  constructor
  · exact C5_at_most_one_superclass_and_raw_type.1 [] (fun _ _ => false)
      [⟨false, .classTy 1⟩] ⟨false, .classTy 2⟩ [] (.classTy 1) 2
      (by decide) (by decide) (by decide) (by decide)
  · exact C5_at_most_one_superclass_and_raw_type.2 [] (fun _ _ => false)
      [⟨false, .otherTy 3⟩] ⟨false, .otherTy 4⟩ [] (.otherTy 3)
      (by decide) (by decide) (by decide) (by decide) (by decide)

theorem C6_witness :
    (checkInheritanceClause (.protocolKind 9) [] (fun _ _ => false)
      [⟨false, .existential [3]⟩, ⟨false, .existential [3]⟩]).state.diags.filter
        (isDupFor (.existential [3])) =
      [CIDiag.duplicateInheritance 1 (.existential [3]) 0] ∧
    1 ∈ (checkInheritanceClause (.protocolKind 9) [] (fun _ _ => false)
      [⟨false, .existential [3]⟩, ⟨false, .existential [3]⟩]).state.invalidEntries ∧
    lookupInherited (.existential [3])
      (checkInheritanceClause (.protocolKind 9) [] (fun _ _ => false)
        [⟨false, .existential [3]⟩, ⟨false, .existential [3]⟩]).state.inheritedTypes =
      some 0 ∧
    (checkInheritanceClause (.protocolKind 9) [] (fun _ _ => false)
      [⟨false, .existential [3]⟩, ⟨false, .existential [3]⟩]).state.allProtocols.Nodup :=
  C6_duplicate_inheritance_diagnosed_once (.protocolKind 9) [] (fun _ _ => false)
    [] [] [] ⟨false, .existential [3]⟩ ⟨false, .existential [3]⟩ (.existential [3])
    (by decide) (by decide) (by decide) (by decide) (by decide) (by simp)

theorem C7_protocol_self_inheritance :
    ((checkInheritanceClause (.protocolKind 7) [] (fun _ _ => false)
        [⟨false, .existential [7]⟩]).protocolsSet = some [] ∧
     (checkInheritanceClause (.protocolKind 7) [] (fun _ _ => false)
        [⟨false, .existential [7]⟩]).state.diags = [CIDiag.circularProtocolDef 7] ∧
     (checkInheritanceClause (.protocolKind 7) [] (fun _ _ => false)
        [⟨false, .existential [7]⟩]).state.invalidEntries = []) ∧
    ((checkCircularity 1
        ⟨fun _ => .Unchecked, fun x => if x = 0 then [0] else [],
         fun _ => false, fun _ => false, []⟩ 0 []).map
        (fun s => (s.diags, s.parents 0, s.invalid 0, s.errorType 0, s.circ 0)) =
      some ([CircDiag.circularSelfReference 0], [], true, true, .Checked)) :=
  ⟨⟨by decide, by decide, by decide⟩, rfl⟩

theorem CircAdvance_refl (s : CircCtx) : CircAdvance s s :=
  ⟨fun _ h => h, fun _ h => h, fun _ h => h, fun _ => Or.inl rfl⟩

theorem CircAdvance_trans (s1 s2 s3 : CircCtx)
    (h1 : CircAdvance s1 s2) (h2 : CircAdvance s2 s3) : CircAdvance s1 s3 := by
  refine ⟨fun x hx => h2.1 x (h1.1 x hx),
    fun x hx => h2.2.1 x (h1.2.1 x hx),
    fun x hx => h1.2.2.1 x (h2.2.2.1 x hx), fun x => ?_⟩
  rcases h2.2.2.2 x with h | h
  · rw [h]; exact h1.2.2.2 x
  · exact Or.inr h

theorem handleCycle_circ (s : CircCtx) (d : Nat) (path : List Nat) :
    (handleCycle s d path).circ = s.circ := by
  unfold handleCycle
  dsimp only
  split <;> rfl

theorem handleCycle_parents (s : CircCtx) (d : Nat) (path : List Nat) :
    (handleCycle s d path).parents = fun x => if x = d then [] else s.parents x := by
  unfold handleCycle
  dsimp only
  split <;> rfl

theorem handleCycle_advance (s : CircCtx) (d : Nat) (path : List Nat) :
    CircAdvance s (handleCycle s d path) :=
  ⟨fun x h => by rw [handleCycle_circ]; exact h,
   fun x h => by rw [handleCycle_circ]; exact h,
   fun x h => by rw [handleCycle_circ] at h; exact h,
   fun x => by rw [handleCycle_parents]; by_cases hx : x = d <;> simp [hx]⟩

theorem checkCircularityList_advance (f : CircCtx → Nat → Option CircCtx)
    (hf : ∀ st c s2, f st c = some s2 → CircAdvance st s2) :
    ∀ (ds : List Nat) (s s2 : CircCtx),
      checkCircularityList f s ds = some s2 → CircAdvance s s2 := by
  intro ds
  induction ds with
  | nil =>
    intro s s2 h
    simp only [checkCircularityList] at h
    cases h
    exact CircAdvance_refl s
  | cons c rest ih =>
    intro s s2 h
    simp only [checkCircularityList] at h
    cases hc : f s c with
    | none => rw [hc] at h; cases h
    | some smid =>
      rw [hc] at h
      exact CircAdvance_trans _ _ _ (hf s c smid hc) (ih smid s2 h)

theorem checkCircularity_advance :
    ∀ (fuel : Nat) (s : CircCtx) (d : Nat) (path : List Nat) (s2 : CircCtx),
      checkCircularity fuel s d path = some s2 → CircAdvance s s2 := by
  intro fuel
  induction fuel with
  | zero =>
    intro s d path s2 h
    simp only [checkCircularity] at h
    split at h
    · cases h; exact CircAdvance_refl _
    · cases h; exact handleCycle_advance _ _ _
    · cases h
  | succ fuel ih =>
    intro s d path s2 h
    simp only [checkCircularity, checkCircularityStep] at h
    split at h
    case h_1 hck => cases h; exact CircAdvance_refl _
    case h_2 hck => cases h; exact handleCycle_advance _ _ _
    case h_3 hck =>
      cases hlist : checkCircularityList
          (fun st c => checkCircularity fuel st c (path ++ [d]))
          (setCirc s d .Checking) ((setCirc s d .Checking).parents d) with
      | none => rw [hlist] at h; cases h
      | some smid =>
        rw [hlist] at h
        cases h
        have hadv : CircAdvance (setCirc s d .Checking) smid :=
          checkCircularityList_advance _ (fun st c s2 hc => ih st c _ s2 hc) _ _ _ hlist
        refine ⟨?_, ?_, ?_, ?_⟩
        · intro x hx
          by_cases hxd : x = d
          · subst hxd; simp [setCirc]
          · have h1 : (setCirc s d CircularityCheck.Checking).circ x ≠ .Unchecked := by
              simpa [setCirc, hxd] using hx
            have h2 := hadv.1 x h1
            simpa [setCirc, hxd] using h2
        · intro x hx
          by_cases hxd : x = d
          · subst hxd; rw [hck] at hx; cases hx
          · have h1 : (setCirc s d CircularityCheck.Checking).circ x = .Checked := by
              simpa [setCirc, hxd] using hx
            have h2 := hadv.2.1 x h1
            simpa [setCirc, hxd] using h2
        · intro x hx
          by_cases hxd : x = d
          · subst hxd; simp [setCirc] at hx
          · have h1 : smid.circ x = .Checking := by
              simpa [setCirc, hxd] using hx
            have h2 := hadv.2.2.1 x h1
            simpa [setCirc, hxd] using h2
        · intro x
          have := hadv.2.2.2 x
          simpa [setCirc] using this

theorem countP_flip_one (l : List Nat) (d : Nat) (p q : Nat → Bool)
    (hnd : l.Nodup) (hd : d ∈ l)
    (hpq : ∀ x ∈ l, x ≠ d → p x = q x) (hp : p d = true) (hq : q d = false) :
    l.countP p = l.countP q + 1 := by
  induction l with
  | nil => simp at hd
  | cons a rest ih =>
    rw [List.countP_cons, List.countP_cons]
    rcases List.mem_cons.mp hd with rfl | hdr
    · have hnd1 : d ∉ rest := (List.nodup_cons.mp hnd).1
      have hcong : rest.countP p = rest.countP q := by
        apply List.countP_congr
        intro x hx
        rw [hpq x (by simp [hx]) (fun hxx => hnd1 (hxx ▸ hx))]
      rw [hcong, hp, hq]
      simp
    · have ha : a ≠ d := by
        rintro rfl
        exact ((List.nodup_cons.mp hnd).1 hdr).elim
      rw [hpq a (by simp) ha]
      have := ih (List.nodup_cons.mp hnd).2 hdr
        (fun x hx hxd => hpq x (by simp [hx]) hxd)
      omega

theorem uncheckedCount_mono (n : Nat) (s s2 : CircCtx)
    (h : ∀ x, s.circ x ≠ .Unchecked → s2.circ x ≠ .Unchecked) :
    uncheckedCount n s2 ≤ uncheckedCount n s := by
  unfold uncheckedCount
  apply List.countP_mono_left
  intro x _ hpx
  by_contra hc
  exact (h x (by simpa using hc)) (by simpa using hpx)

theorem uncheckedCount_setCirc (n : Nat) (s : CircCtx) (d : Nat)
    (hd : d < n) (hcirc : s.circ d = .Unchecked) :
    uncheckedCount n s = uncheckedCount n (setCirc s d .Checking) + 1 := by
  unfold uncheckedCount
  apply countP_flip_one _ d _ _ (List.nodup_range n) (List.mem_range.mpr hd)
  · intro x _ hx
    simp [setCirc, hx]
  · simp [hcirc]
  · simp [setCirc]

theorem uncheckedCount_pos (n : Nat) (s : CircCtx) (d : Nat)
    (hd : d < n) (hcirc : s.circ d = .Unchecked) :
    0 < uncheckedCount n s := by
  unfold uncheckedCount
  rw [List.countP_pos]
  exact ⟨d, List.mem_range.mpr hd, by simp [hcirc]⟩

theorem checkCircularityList_total (n fuel : Nat)
    (f : CircCtx → Nat → Option CircCtx)
    (hf : ∀ st c, (∀ x y, y ∈ st.parents x → y < n) → c < n →
      uncheckedCount n st ≤ fuel → ∃ s2, f st c = some s2)
    (hadv : ∀ st c s2, f st c = some s2 → CircAdvance st s2) :
    ∀ (ds : List Nat) (st : CircCtx),
      (∀ x y, y ∈ st.parents x → y < n) → (∀ c ∈ ds, c < n) →
      uncheckedCount n st ≤ fuel →
      ∃ s2, checkCircularityList f st ds = some s2 := by
  intro ds
  induction ds with
  | nil => intro st _ _ _; exact ⟨st, rfl⟩
  | cons c rest ih =>
    intro st hcl hds hcount
    obtain ⟨smid, hmid⟩ := hf st c hcl (hds c (by simp)) hcount
    have hadv1 := hadv st c smid hmid
    have hcl2 : ∀ x y, y ∈ smid.parents x → y < n := by
      intro x y hy
      rcases hadv1.2.2.2 x with hp | hp
      · exact hcl x y (hp ▸ hy)
      · rw [hp] at hy; cases hy
    have hcount2 : uncheckedCount n smid ≤ fuel :=
      le_trans (uncheckedCount_mono n st smid hadv1.1) hcount
    obtain ⟨s2, h2⟩ := ih smid hcl2 (fun x hx => hds x (by simp [hx])) hcount2
    refine ⟨s2, ?_⟩
    simp only [checkCircularityList, hmid]
    exact h2

theorem checkCircularity_total :
    ∀ (fuel n : Nat) (s : CircCtx) (d : Nat) (path : List Nat),
      (∀ x y, y ∈ s.parents x → y < n) → d < n →
      uncheckedCount n s ≤ fuel →
      ∃ s2, checkCircularity fuel s d path = some s2 := by
  intro fuel
  induction fuel with
  | zero =>
    intro n s d path hcl hd hcount
    simp only [checkCircularity]
    cases hcirc : s.circ d with
    | Checked => exact ⟨s, rfl⟩
    | Checking => exact ⟨handleCycle s d path, rfl⟩
    | Unchecked =>
      exfalso
      have := uncheckedCount_pos n s d hd hcirc
      omega
  | succ fuel ih =>
    intro n s d path hcl hd hcount
    simp only [checkCircularity, checkCircularityStep]
    cases hcirc : s.circ d with
    | Checked => exact ⟨s, rfl⟩
    | Checking => exact ⟨handleCycle s d path, rfl⟩
    | Unchecked =>
      have hcount1 : uncheckedCount n (setCirc s d .Checking) ≤ fuel := by
        have := uncheckedCount_setCirc n s d hd hcirc
        omega
      have hcl1 : ∀ x y, y ∈ (setCirc s d CircularityCheck.Checking).parents x → y < n := hcl
      obtain ⟨s2, h2⟩ := checkCircularityList_total n fuel
        (fun st c => checkCircularity fuel st c (path ++ [d]))
        (fun st c hstcl hc hstcount => ih n st c (path ++ [d]) hstcl hc hstcount)
        (fun st c s2 hc => checkCircularity_advance fuel st c _ s2 hc)
        ((setCirc s d CircularityCheck.Checking).parents d)
        (setCirc s d .Checking) hcl1
        (fun c hc => hcl d c hc) hcount1
      exact ⟨setCirc s2 d .Checked, by rw [h2]⟩

theorem checkCircularity_result_checked (fuel : Nat) (s : CircCtx) (d : Nat)
    (path : List Nat) (s2 : CircCtx)
    (h : checkCircularity fuel s d path = some s2)
    (hnc : s.circ d ≠ .Checking) : s2.circ d = .Checked := by
  cases fuel with
  | zero =>
    simp only [checkCircularity] at h
    split at h
    · cases h; assumption
    · exact absurd (by assumption) hnc
    · cases h
  | succ fuel =>
    simp only [checkCircularity, checkCircularityStep] at h
    split at h
    · cases h; assumption
    · exact absurd (by assumption) hnc
    · split at h
      · cases h
      · cases h; simp [setCirc]

theorem checkCircularity_checked_noop (fuel : Nat) (s : CircCtx) (d : Nat)
    (path : List Nat) (h : s.circ d = .Checked) :
    checkCircularity fuel s d path = some s := by
  cases fuel with
  | zero => simp only [checkCircularity]; rw [h]
  | succ fuel => simp only [checkCircularity, checkCircularityStep]; rw [h]

theorem C2_circularity_terminates_each_node_checked_once :
    ∀ (n fuel : Nat) (s : CircCtx) (d : Nat) (path : List Nat),
      (∀ x y, y ∈ s.parents x → y < n) → d < n →
      uncheckedCount n s ≤ fuel → s.circ d ≠ .Checking →
      ∃ s2, checkCircularity fuel s d path = some s2 ∧
        s2.circ d = .Checked ∧
        ∀ (fuel2 : Nat) (path2 : List Nat),
          checkCircularity fuel2 s2 d path2 = some s2 := by
  intro n fuel s d path hcl hd hcount hnc
  obtain ⟨s2, h2⟩ := checkCircularity_total fuel n s d path hcl hd hcount
  have hchecked := checkCircularity_result_checked fuel s d path s2 h2 hnc
  exact ⟨s2, h2, hchecked,
    fun fuel2 path2 => checkCircularity_checked_noop fuel2 s2 d path2 hchecked⟩

theorem C2_witness :
    (∀ x y, y ∈ (if x = 0 then [0] else ([] : List Nat)) → y < 1) ∧
    (0 : Nat) < 1 ∧
    uncheckedCount 1 ⟨fun _ => .Unchecked, fun x => if x = 0 then [0] else [],
      fun _ => false, fun _ => false, []⟩ ≤ 1 ∧
    (∃ s2, checkCircularity 1
        ⟨fun _ => .Unchecked, fun x => if x = 0 then [0] else [],
         fun _ => false, fun _ => false, []⟩ 0 [] = some s2 ∧
      s2.circ 0 = .Checked ∧
      ∀ (fuel2 : Nat) (path2 : List Nat),
        checkCircularity fuel2 s2 0 path2 = some s2) := by
  have hcl : ∀ x y, y ∈ (if x = 0 then [0] else ([] : List Nat)) → y < 1 := by
    intro x y hy
    by_cases hx : x = 0 <;> simp [hx] at hy <;> omega
  refine ⟨hcl, by decide, by decide, ?_⟩
  exact C2_circularity_terminates_each_node_checked_once 1 1
    ⟨fun _ => .Unchecked, fun x => if x = 0 then [0] else [],
     fun _ => false, fun _ => false, []⟩ 0 [] hcl (by decide) (by decide) (by decide)

theorem checkOverridesLoop_sound (decl : OvDecl) :
    ∀ (cands : List OvCandidate) (acc : List (OvCandidate × Bool)) (he : Bool)
      (ms : List (OvCandidate × Bool)) (hadExact : Bool),
      checkOverridesLoop decl cands acc he = .finished ms hadExact →
      ∀ p ∈ ms, p ∈ acc ∨ (p.1 ∈ cands ∧ p.1.kind = decl.kind ∧
        areOverrideCompatibleSimple decl p.1 = true) := by
  intro cands
  induction cands with
  | nil =>
    intro acc he ms hadExact h p hp
    simp only [checkOverridesLoop] at h
    cases h
    exact Or.inl hp
  | cons m rest ih =>
    intro acc he ms hadExact h p hp
    have hskip : ∀ (acc2 : List (OvCandidate × Bool)) (he2 : Bool),
        checkOverridesLoop decl rest acc2 he2 = .finished ms hadExact → p ∈ acc2 ∨
          (p.1 ∈ m :: rest ∧ p.1.kind = decl.kind ∧
            areOverrideCompatibleSimple decl p.1 = true) := by
      intro acc2 he2 h2
      rcases ih acc2 he2 ms hadExact h2 p hp with hacc | ⟨ha, hb, hc⟩
      · exact Or.inl hacc
      · exact Or.inr ⟨List.mem_cons_of_mem m ha, hb, hc⟩
    have hadd : ∀ (b : Bool) (he2 : Bool),
        m.kind = decl.kind → areOverrideCompatibleSimple decl m = true →
        checkOverridesLoop decl rest (acc ++ [(m, b)]) he2 = .finished ms hadExact →
        p ∈ acc ∨ (p.1 ∈ m :: rest ∧ p.1.kind = decl.kind ∧
          areOverrideCompatibleSimple decl p.1 = true) := by
      intro b he2 hk hcmp h2
      rcases ih _ _ ms hadExact h2 p hp with hacc | ⟨ha, hb, hc⟩
      · rcases List.mem_append.mp hacc with hin | hone
        · exact Or.inl hin
        · simp only [List.mem_singleton] at hone
          subst hone
          exact Or.inr ⟨List.mem_cons_self m rest, hk, hcmp⟩
      · exact Or.inr ⟨List.mem_cons_of_mem m ha, hb, hc⟩
    simp only [checkOverridesLoop] at h
    by_cases c1 : m.isInvalid = true
    · rw [if_pos c1] at h
      exact hskip _ _ h
    · rw [if_neg c1] at h
      by_cases c2 : m.kind ≠ decl.kind
      · rw [if_pos c2] at h
        exact hskip _ _ h
      · rw [if_neg c2] at h
        have hk : m.kind = decl.kind := not_not.mp c2
        by_cases c3 : ¬ (m.inClassContext = true)
        · rw [if_pos c3] at h
          exact hskip _ _ h
        · rw [if_neg c3] at h
          by_cases c4 : ¬ (areOverrideCompatibleSimple decl m = true)
          · rw [if_pos c4] at h
            exact hskip _ _ h
          · rw [if_neg c4] at h
            have hcmp : areOverrideCompatibleSimple decl m = true := not_not.mp c4
            by_cases c5 : decl.kind = OvKind.ctorKind ∧ m.isFactoryInit = true
            · rw [if_pos c5] at h
              exact hskip _ _ h
            · rw [if_neg c5] at h
              by_cases c6 : m.tyEqual = true
              · rw [if_pos c6] at h
                exact hadd _ _ hk hcmp h
              · rw [if_neg c6] at h
                by_cases c7 : m.kind = OvKind.varKind
                · rw [if_pos c7] at h
                  exact hadd _ _ hk hcmp h
                · rw [if_neg c7] at h
                  by_cases c8 : m.canOverrideTy = true
                  · rw [if_pos c8] at h
                    exact hadd _ _ hk hcmp h
                  · rw [if_neg c8] at h
                    by_cases c9 : objCMatchOf decl m = true
                    · rw [if_pos c9] at h
                      exact absurd h (by simp)
                    · rw [if_neg c9] at h
                      exact hskip _ _ h

theorem checkSingleMatch_link (decl : OvDecl) (m : OvCandidate) (i : Nat)
    (h : (checkSingleMatch decl m).link = some i) : i = m.id := by
  unfold checkSingleMatch recordOverride at h
  repeat' split at h
  all_goals simp_all

theorem selectOverride_link_mem (decl : OvDecl) (retried : Bool)
    (ms : List (OvCandidate × Bool)) (he : Bool) (i : Nat)
    (h : (selectOverride decl retried ms he).link = some i) :
    ∃ p ∈ ms, p.1.id = i := by
  unfold selectOverride at h
  by_cases hhe : he = true
  · rw [if_pos hhe] at h
    dsimp only at h
    split at h
    · simp at h
    · rename_i m b heq
      have hmem : (m, b) ∈ ms.filter (fun p => p.2) := by
        rw [heq]
        simp
      exact ⟨(m, b), List.mem_of_mem_filter hmem, (checkSingleMatch_link decl m i h).symm⟩
    · simp at h
  · rw [if_neg hhe] at h
    dsimp only at h
    cases ms with
    | nil => exact Option.noConfusion h
    | cons p1 t =>
      cases t with
      | nil =>
        obtain ⟨m, b⟩ := p1
        exact ⟨(m, b), by simp, (checkSingleMatch_link decl m i h).symm⟩
      | cons p2 t2 => exact Option.noConfusion h

theorem checkOverrides_link_cases (decl : OvDecl) (primary fallback : List OvCandidate)
    (i : Nat) (h : (checkOverrides decl primary fallback).link = some i) :
    (∃ ms he, checkOverridesLoop decl primary [] false = .finished ms he ∧
       (selectOverride decl false ms he).link = some i) ∨
    (∃ ms he, checkOverridesLoop decl fallback [] false = .finished ms he ∧
       (selectOverride decl true ms he).link = some i) := by
  unfold checkOverrides at h
  by_cases c1 : decl.isInvalid = true ∨ decl.hasOverriddenDecl = true
  · rw [if_pos c1] at h
    exact Option.noConfusion h
  · rw [if_neg c1] at h
    by_cases c2 : ¬ (decl.hasSuperclass = true)
    · rw [if_pos c2] at h
      exact Option.noConfusion h
    · rw [if_neg c2] at h
      by_cases c3 : decl.isAccessor = true
      · rw [if_pos c3] at h
        exact Option.noConfusion h
      · rw [if_neg c3] at h
        cases hloop : checkOverridesLoop decl primary [] false with
        | objcTypeMismatch =>
          rw [hloop] at h
          exact Option.noConfusion h
        | finished ms he =>
          rw [hloop] at h
          cases ms with
          | nil =>
            dsimp only at h
            by_cases c4 : decl.nameIsSimple = true ∨ decl.argLabels = 0 ∨
                ¬ (decl.hasOverrideAttr = true)
            · rw [if_pos c4] at h
              exact Option.noConfusion h
            · rw [if_neg c4] at h
              cases hloop2 : checkOverridesLoop decl fallback [] false with
              | objcTypeMismatch =>
                rw [hloop2] at h
                exact Option.noConfusion h
              | finished ms2 he2 =>
                rw [hloop2] at h
                cases ms2 with
                | nil => exact Option.noConfusion h
                | cons p2 t2 =>
                  exact Or.inr ⟨p2 :: t2, he2, rfl, h⟩
          | cons p1 t1 =>
            exact Or.inl ⟨p1 :: t1, he, rfl, h⟩

theorem mismatch_not_compatible (decl : OvDecl) (m : OvCandidate)
    (hmis : m.argLabels ≠ decl.argLabels ∨ m.kind ≠ decl.kind ∨
      ((decl.kind = .funcKind ∨ decl.kind = .varKind) ∧ m.isStatic ≠ decl.isStatic)) :
    ¬ (m.kind = decl.kind ∧ areOverrideCompatibleSimple decl m = true) := by
  rintro ⟨hk, hcmp⟩
  unfold areOverrideCompatibleSimple at hcmp
  rcases hmis with hlab | hkind | ⟨hdk, hstat⟩
  · rw [if_pos (fun hh => hlab hh.symm)] at hcmp
    exact Bool.noConfusion hcmp
  · exact hkind hk
  · by_cases hlab : decl.argLabels ≠ m.argLabels
    · rw [if_pos hlab] at hcmp
      exact Bool.noConfusion hcmp
    · rw [if_neg hlab] at hcmp
      rcases hdk with hdk | hdk <;> rw [hdk] at hcmp <;>
        · have hb : decl.isStatic = m.isStatic := by simpa using hcmp
          exact hstat hb.symm

theorem C8_label_kind_static_prefilter :
    ∀ (decl : OvDecl) (primary fallback : List OvCandidate) (m : OvCandidate),
      (m.argLabels ≠ decl.argLabels ∨ m.kind ≠ decl.kind ∨
        ((decl.kind = .funcKind ∨ decl.kind = .varKind) ∧ m.isStatic ≠ decl.isStatic)) →
      ((∀ (ms : List (OvCandidate × Bool)) (hadExact : Bool),
          checkOverridesLoop decl primary [] false = .finished ms hadExact →
          ∀ p ∈ ms, p.1 ≠ m) ∧
       (∀ (ms : List (OvCandidate × Bool)) (hadExact : Bool),
          checkOverridesLoop decl fallback [] false = .finished ms hadExact →
          ∀ p ∈ ms, p.1 ≠ m) ∧
       ((checkOverrides decl primary fallback).link = some m.id →
          ∃ m2, (m2 ∈ primary ∨ m2 ∈ fallback) ∧ m2.id = m.id ∧ m2 ≠ m)) := by
  intro decl primary fallback m hmis
  have hnc := mismatch_not_compatible decl m hmis
  have hloopPart : ∀ (cands : List OvCandidate) (ms : List (OvCandidate × Bool))
      (hadExact : Bool),
      checkOverridesLoop decl cands [] false = .finished ms hadExact →
      ∀ p ∈ ms, p.1 ≠ m := by
    intro cands ms hadExact hl p hp hpm
    rcases checkOverridesLoop_sound decl cands [] false ms hadExact hl p hp with
      habs | ⟨_, hb, hc⟩
    · simp at habs
    · exact hnc ⟨hpm ▸ hb, hpm ▸ hc⟩
  refine ⟨hloopPart primary, hloopPart fallback, ?_⟩
  intro hlink
  rcases checkOverrides_link_cases decl primary fallback m.id hlink with
    ⟨ms, he, hl, hsel⟩ | ⟨ms, he, hl, hsel⟩
  · obtain ⟨p, hp, hpid⟩ := selectOverride_link_mem decl false ms he m.id hsel
    rcases checkOverridesLoop_sound decl primary [] false ms he hl p hp with
      habs | ⟨ha, hb, hc⟩
    · simp at habs
    · refine ⟨p.1, Or.inl ha, hpid, fun hpm => hnc ⟨hpm ▸ hb, hpm ▸ hc⟩⟩
  · obtain ⟨p, hp, hpid⟩ := selectOverride_link_mem decl true ms he m.id hsel
    rcases checkOverridesLoop_sound decl fallback [] false ms he hl p hp with
      habs | ⟨ha, hb, hc⟩
    · simp at habs
    · refine ⟨p.1, Or.inr ha, hpid, fun hpm => hnc ⟨hpm ▸ hb, hpm ▸ hc⟩⟩

theorem checkOverrides_of_loop (decl : OvDecl) (primary fallback : List OvCandidate)
    (ms : List (OvCandidate × Bool)) (hadExact : Bool)
    (h1 : decl.isInvalid = false) (h2 : decl.hasOverriddenDecl = false)
    (h3 : decl.hasSuperclass = true) (h4 : decl.isAccessor = false)
    (hl : checkOverridesLoop decl primary [] false = .finished ms hadExact)
    (hne : ms ≠ []) :
    checkOverrides decl primary fallback = selectOverride decl false ms hadExact := by
  unfold checkOverrides
  rw [if_neg (by simp [h1, h2]), if_neg (by simp [h3]), if_neg (by simp [h4]), hl]
  cases ms with
  | nil => exact absurd rfl hne
  | cons p t => rfl

theorem selectOverride_single (decl : OvDecl) (retried : Bool)
    (ms : List (OvCandidate × Bool)) (he : Bool) (m : OvCandidate) (b : Bool)
    (hs : (if he then ms.filter (fun p => p.2) else ms) = [(m, b)]) :
    selectOverride decl retried ms he = checkSingleMatch decl m := by
  unfold selectOverride
  dsimp only
  rw [hs]

theorem selectOverride_multi (decl : OvDecl) (retried : Bool)
    (ms : List (OvCandidate × Bool)) (he : Bool) (p1 p2 : OvCandidate × Bool)
    (rest : List (OvCandidate × Bool))
    (hs : (if he then ms.filter (fun p => p.2) else ms) = p1 :: p2 :: rest) :
    selectOverride decl retried ms he =
      ⟨true, none, [OvDiag.multipleDecls retried] ++
        (p1 :: p2 :: rest).map (fun p => OvDiag.listedCandidate retried p.1.id)⟩ := by
  unfold selectOverride
  dsimp only
  rw [hs]

theorem checkSingleMatch_func_exact (decl : OvDecl) (m : OvCandidate)
    (h1 : m.tyEqual = true) (h2 : decl.kind = .funcKind)
    (h3 : decl.inExtension = false) (h4 : m.inExtension = false) :
    checkSingleMatch decl m =
      ⟨false, some m.id,
        if ¬ decl.hasOverrideAttr ∧ m.requiresOverrideKeyword then
          [OvDiag.missingOverride] else []⟩ := by
  simp [checkSingleMatch, recordOverride, h1, h2, h3, h4]

theorem C3_counterexample :
    checkOverridesLoop
      ⟨.subscriptKind, false, false, true, false, 1, false, false, true, false,
        false, false, true, false⟩
      [⟨5, .subscriptKind, false, true, 1, false, false, false, false, false, true,
        true, true, false, true, false, false, true⟩] [] false =
      .finished [(⟨5, .subscriptKind, false, true, 1, false, false, false, false,
        false, true, true, true, false, true, false, false, true⟩, false)] false ∧
    (checkOverrides
      ⟨.subscriptKind, false, false, true, false, 1, false, false, true, false,
        false, false, true, false⟩
      [⟨5, .subscriptKind, false, true, 1, false, false, false, false, false, true,
        true, true, false, true, false, false, true⟩] []).link = none ∧
    (checkOverrides
      ⟨.subscriptKind, false, false, true, false, 1, false, false, true, false,
        false, false, true, false⟩
      [⟨5, .subscriptKind, false, true, 1, false, false, false, false, false, true,
        true, true, false, true, false, false, true⟩] []).errored = true ∧
    (checkOverrides
      ⟨.subscriptKind, false, false, true, false, 1, false, false, true, false,
        false, false, true, false⟩
      [⟨5, .subscriptKind, false, true, 1, false, false, false, false, false, true,
        true, true, false, true, false, false, true⟩] []).diags =
      [OvDiag.mutableCovariantSubscript 5] := by
  refine ⟨by decide, by decide, by decide, by decide⟩

theorem C3_tie_break_and_ambiguity :
    ∀ (decl : OvDecl) (primary fallback : List OvCandidate)
      (ms : List (OvCandidate × Bool)) (hadExact : Bool),
      decl.isInvalid = false → decl.hasOverriddenDecl = false →
      decl.hasSuperclass = true → decl.isAccessor = false →
      checkOverridesLoop decl primary [] false = .finished ms hadExact →
      ms ≠ [] →
      ((hadExact = true →
         ∀ p ∈ (if hadExact then ms.filter (fun p => p.2) else ms), p.2 = true) ∧
       (∀ m b, (if hadExact then ms.filter (fun p => p.2) else ms) = [(m, b)] →
         m.tyEqual = true → decl.kind = .funcKind →
         decl.inExtension = false → m.inExtension = false →
         (checkOverrides decl primary fallback).link = some m.id ∧
         (checkOverrides decl primary fallback).errored = false) ∧
       (∀ p1 p2 rest,
         (if hadExact then ms.filter (fun p => p.2) else ms) = p1 :: p2 :: rest →
         (checkOverrides decl primary fallback).link = none ∧
         (checkOverrides decl primary fallback).errored = true ∧
         OvDiag.multipleDecls false ∈ (checkOverrides decl primary fallback).diags ∧
         ∀ p ∈ p1 :: p2 :: rest, OvDiag.listedCandidate false p.1.id ∈
           (checkOverrides decl primary fallback).diags)) := by
  intro decl primary fallback ms hadExact h1 h2 h3 h4 hl hne
  have hco := checkOverrides_of_loop decl primary fallback ms hadExact h1 h2 h3 h4 hl hne
  refine ⟨?_, ?_, ?_⟩
  · intro hhe p hp
    rw [if_pos hhe] at hp
    exact (List.mem_filter.mp hp).2
  · intro m b hs hty hkind hde hme
    rw [hco, selectOverride_single decl false ms hadExact m b hs,
      checkSingleMatch_func_exact decl m hty hkind hde hme]
    exact ⟨rfl, rfl⟩
  · intro p1 p2 rest hs
    rw [hco, selectOverride_multi decl false ms hadExact p1 p2 rest hs]
    refine ⟨rfl, rfl, by simp, ?_⟩
    intro p hp
    simp only [List.mem_append, List.mem_map]
    exact Or.inr ⟨p, hp, rfl⟩

theorem C3_tie_break_and_ambiguity_witness :
    (checkOverrides
      ⟨.funcKind, false, false, true, false, 1, false, false, true, false,
        false, false, true, false⟩
      [⟨7, .funcKind, false, true, 1, false, false, false, false, true, true,
        false, true, false, false, false, false, true⟩,
       ⟨8, .funcKind, false, true, 1, false, false, false, false, false, true,
        false, true, false, false, false, false, true⟩] []).link = some 7 ∧
    (checkOverrides
      ⟨.funcKind, false, false, true, false, 1, false, false, true, false,
        false, false, true, false⟩
      [⟨7, .funcKind, false, true, 1, false, false, false, false, true, true,
        false, true, false, false, false, false, true⟩,
       ⟨8, .funcKind, false, true, 1, false, false, false, false, false, true,
        false, true, false, false, false, false, true⟩] []).errored = false :=
  (C3_tie_break_and_ambiguity
    ⟨.funcKind, false, false, true, false, 1, false, false, true, false,
      false, false, true, false⟩
    [⟨7, .funcKind, false, true, 1, false, false, false, false, true, true,
      false, true, false, false, false, false, true⟩,
     ⟨8, .funcKind, false, true, 1, false, false, false, false, false, true,
      false, true, false, false, false, false, true⟩] []
    [(⟨7, .funcKind, false, true, 1, false, false, false, false, true, true,
      false, true, false, false, false, false, true⟩, true),
     (⟨8, .funcKind, false, true, 1, false, false, false, false, false, true,
      false, true, false, false, false, false, true⟩, false)] true
    rfl rfl rfl rfl (by decide) (by decide)).2.1
    ⟨7, .funcKind, false, true, 1, false, false, false, false, true, true,
      false, true, false, false, false, false, true⟩ true
    (by decide) rfl rfl rfl rfl

theorem C8_label_kind_static_prefilter_witness :
    (⟨2, .funcKind, false, true, 1, false, false, false, false, true, true,
      false, true, false, false, false, false, true⟩ : OvCandidate) ≠
    ⟨1, .funcKind, false, true, 2, false, false, false, false, true, true,
      false, true, false, false, false, false, true⟩ :=
  (C8_label_kind_static_prefilter
    ⟨.funcKind, false, false, true, false, 1, false, false, true, false,
      false, false, true, false⟩
    [⟨1, .funcKind, false, true, 2, false, false, false, false, true, true,
      false, true, false, false, false, false, true⟩,
     ⟨2, .funcKind, false, true, 1, false, false, false, false, true, true,
      false, true, false, false, false, false, true⟩] []
    ⟨1, .funcKind, false, true, 2, false, false, false, false, true, true,
      false, true, false, false, false, false, true⟩
    (Or.inl (by decide))).1
    [(⟨2, .funcKind, false, true, 1, false, false, false, false, true, true,
      false, true, false, false, false, false, true⟩, true)] true
    (by decide)
    (⟨2, .funcKind, false, true, 1, false, false, false, false, true, true,
      false, true, false, false, false, false, true⟩, true)
    (by decide)

theorem validateBody_mem (s : VState) (d : Nat) :
    d ∈ (validateBody s d).validatedTrace := by
  unfold validateBody
  split
  · assumption
  · simp

theorem validateBody_trace (s : VState) (d x : Nat) :
    x ∈ (validateBody s d).validatedTrace → x ∈ s.validatedTrace ∨ x = d := by
  unfold validateBody
  split
  · exact fun h => Or.inl h
  · intro h
    simpa using h

theorem validateBody_notmem (s : VState) (d : Nat) (h : d ∉ s.validatedTrace) :
    (validateBody s d).validatedTrace = s.validatedTrace ++ [d] := by
  unfold validateBody
  rw [if_neg h]

theorem validateDecl_bound (env : VEnv)
    (hctx : ∀ n m, (env.info n).declContext = some m → m < n) :
    ∀ (fuel : Nat) (s : VState) (d x : Nat),
      x ∈ (validateDecl env fuel s d).validatedTrace →
      x ∈ s.validatedTrace ∨ x ≤ d := by
  intro fuel
  induction fuel with
  | zero => exact fun s d x h => Or.inl h
  | succ f ih =>
    intro s d x h
    unfold validateDecl at h
    by_cases hk : (env.info d).kind = VDeclKind.genericParamKind
    · rw [if_pos hk] at h
      rcases validateBody_trace s d x h with h | h
      · exact Or.inl h
      · exact Or.inr (le_of_eq h)
    · rw [if_neg hk] at h
      split at h
      · rcases validateBody_trace s d x h with h | h
        · exact Or.inl h
        · exact Or.inr (le_of_eq h)
      · rename_i c heq
        have hcd : c < d := hctx d c heq
        split at h
        · split at h
          · exact Or.inl h
          · rcases validateBody_trace _ d x h with h | h
            · rcases ih s c x h with h | h
              · exact Or.inl h
              · exact Or.inr (le_of_lt (lt_of_le_of_lt h hcd))
            · exact Or.inr (le_of_eq h)
        · split at h
          · exact Or.inl h
          · rcases validateBody_trace _ d x h with h | h
            · rcases validateBody_trace s c x h with h | h
              · exact Or.inl h
              · exact Or.inr (le_of_lt (lt_of_le_of_lt (le_of_eq h) hcd))
            · exact Or.inr (le_of_eq h)
        · rcases validateBody_trace s d x h with h | h
          · exact Or.inl h
          · exact Or.inr (le_of_eq h)

theorem validateDecl_complete (env : VEnv) (s : VState) (c : Nat)
    (hbtc : ∀ n, s.isBeingTypeChecked n = false) (fuel : Nat) (hf : 0 < fuel) :
    c ∈ (validateDecl env fuel s c).validatedTrace := by
  cases fuel with
  | zero => omega
  | succ f =>
    unfold validateDecl
    by_cases hk : (env.info c).kind = VDeclKind.genericParamKind
    · rw [if_pos hk]
      exact validateBody_mem s c
    · rw [if_neg hk]
      split
      · exact validateBody_mem s c
      · rename_i c2 heq
        split
        · rw [if_neg (by simp [hbtc c2])]
          exact validateBody_mem _ c
        · rw [if_neg (by simp [hbtc c2])]
          exact validateBody_mem _ c
        · exact validateBody_mem s c

theorem C9_counterexample :
    (validateDecl
        ⟨fun n => if n = 1 then ⟨VDeclKind.genericParamKind, some 0⟩
          else ⟨VDeclKind.nominalKind, none⟩⟩
        2 ⟨[], fun _ => false⟩ 1).validatedTrace = [1] ∧
    (0 : Nat) ∉ (validateDecl
        ⟨fun n => if n = 1 then ⟨VDeclKind.genericParamKind, some 0⟩
          else ⟨VDeclKind.nominalKind, none⟩⟩
        2 ⟨[], fun _ => false⟩ 1).validatedTrace ∧
    ((⟨fun n => if n = 1 then ⟨VDeclKind.genericParamKind, some 0⟩
          else ⟨VDeclKind.nominalKind, none⟩⟩ : VEnv).info 1).declContext =
      some 0 ∧
    ((⟨fun n => if n = 1 then ⟨VDeclKind.genericParamKind, some 0⟩
          else ⟨VDeclKind.nominalKind, none⟩⟩ : VEnv).info 0).kind =
      VDeclKind.nominalKind := by
  refine ⟨rfl, by decide, rfl, rfl⟩

theorem C9_context_validated_first :
    ∀ (env : VEnv) (s : VState) (d c : Nat) (fuel : Nat),
      (env.info d).kind ≠ VDeclKind.genericParamKind →
      (env.info d).declContext = some c →
      ((env.info c).kind = VDeclKind.nominalKind ∨
        (env.info c).kind = VDeclKind.extensionKind) →
      ((s.isBeingTypeChecked c = true → 0 < fuel →
          validateDecl env fuel s d = s) ∧
       ((∀ n, s.isBeingTypeChecked n = false) →
        (∀ n m, (env.info n).declContext = some m → m < n) →
        d ∉ s.validatedTrace → 1 < fuel →
        ∃ t, (validateDecl env fuel s d).validatedTrace = t ++ [d] ∧ c ∈ t)) := by
  intro env s d c fuel hk hdc hck
  constructor
  · intro hb hf
    cases fuel with
    | zero => omega
    | succ f =>
      rcases hck with h | h
      · simp only [validateDecl, if_neg hk, hdc, h, if_pos hb]
      · simp only [validateDecl, if_neg hk, hdc, h, if_pos hb]
  · intro hbtc hctx hd hf
    cases fuel with
    | zero => omega
    | succ f =>
      rcases hck with h | h
      · have hb : s.isBeingTypeChecked c = false := hbtc c
        have hmem : c ∈ (validateDecl env f s c).validatedTrace :=
          validateDecl_complete env s c hbtc f (by omega)
        have hnd : d ∉ (validateDecl env f s c).validatedTrace := by
          intro hx
          rcases validateDecl_bound env hctx f s c d hx with hx | hx
          · exact hd hx
          · have := hctx d c hdc
            omega
        have hbne : ¬ s.isBeingTypeChecked c = true := by simp [hb]
        refine ⟨(validateDecl env f s c).validatedTrace, ?_, hmem⟩
        simp only [validateDecl, if_neg hk, hdc, h, if_neg hbne]
        exact validateBody_notmem _ d hnd
      · have hb : s.isBeingTypeChecked c = false := hbtc c
        have hmem : c ∈ (validateBody s c).validatedTrace := validateBody_mem s c
        have hnd : d ∉ (validateBody s c).validatedTrace := by
          intro hx
          rcases validateBody_trace s c d hx with hx | hx
          · exact hd hx
          · have := hctx d c hdc
            omega
        have hbne : ¬ s.isBeingTypeChecked c = true := by simp [hb]
        refine ⟨(validateBody s c).validatedTrace, ?_, hmem⟩
        simp only [validateDecl, if_neg hk, hdc, h, if_neg hbne]
        exact validateBody_notmem _ d hnd

theorem C9_context_validated_first_witness :
    validateDecl
      ⟨fun n => if n = 1 then ⟨VDeclKind.otherKind, some 0⟩
        else ⟨VDeclKind.nominalKind, none⟩⟩
      1 ⟨[], fun _ => true⟩ 1 = ⟨[], fun _ => true⟩ ∧
    ∃ t, (validateDecl
      ⟨fun n => if n = 1 then ⟨VDeclKind.otherKind, some 0⟩
        else ⟨VDeclKind.nominalKind, none⟩⟩
      3 ⟨[], fun _ => false⟩ 1).validatedTrace = t ++ [1] ∧ 0 ∈ t :=
  ⟨(C9_context_validated_first
      ⟨fun n => if n = 1 then ⟨VDeclKind.otherKind, some 0⟩
        else ⟨VDeclKind.nominalKind, none⟩⟩
      ⟨[], fun _ => true⟩ 1 0 1 (by decide) rfl (Or.inl rfl)).1 rfl (by decide),
   (C9_context_validated_first
      ⟨fun n => if n = 1 then ⟨VDeclKind.otherKind, some 0⟩
        else ⟨VDeclKind.nominalKind, none⟩⟩
      ⟨[], fun _ => false⟩ 1 0 3 (by decide) rfl (Or.inl rfl)).2
     (fun n => rfl)
     (by
       intro n m hm
       by_cases hn : n = 1 <;> simp [hn] at hm <;> omega)
     (by simp) (by decide)⟩
